import Mathlib

/-!
Verification of the ShopSense intent classifier
(`src/lib/intentClassifier.ts`).

Strings are embedded as `List Char`.  JavaScript numbers are embedded as
rationals (`ℚ`); every numeric value reachable in the classifier is a
small decimal, on which IEEE doubles and `ℚ` agree exactly.  All regular
expressions in the source carry the `i` (case-insensitive) flag, so the
regex engine below compares characters up to ASCII case.
-/

namespace ShopSense

/-- JavaScript's `\s` class (also the character set removed by
`String.prototype.trim`): ASCII whitespace, NBSP and the Unicode
space/line separators. -/
def jsWhitespace (c : Char) : Bool :=
  c = ' ' ∨ (9 ≤ c.toNat ∧ c.toNat ≤ 13) ∨ c.toNat = 0xA0 ∨
    c.toNat = 0x1680 ∨ (0x2000 ≤ c.toNat ∧ c.toNat ≤ 0x200A) ∨
    c.toNat = 0x2028 ∨ c.toNat = 0x2029 ∨ c.toNat = 0x202F ∨
    c.toNat = 0x205F ∨ c.toNat = 0x3000 ∨ c.toNat = 0xFEFF

/-- JavaScript's `\w` class: ASCII letters, digits and underscore. -/
def isWordCh (c : Char) : Bool :=
  (('a' ≤ c ∧ c ≤ 'z') ∨ ('A' ≤ c ∧ c ≤ 'Z') ∨ c.isDigit ∨ c = '_')

/-- JavaScript's `.` (without the `s` flag): any character except a
line terminator. -/
def dotCh (c : Char) : Bool :=
  ¬ (c = '\n' ∨ c = '\r' ∨ c.toNat = 0x2028 ∨ c.toNat = 0x2029)

/-- `String.toList` shorthand used to write the source's string literals. -/
def strL (s : String) : List Char := s.toList

/-- An ASCII apostrophe (U+0027), used in literals such as the
source's `what's`. -/
def apos : Char := Char.ofNat 39

/-- `String.prototype.toLowerCase`, restricted to ASCII (every string
the classifier compares case-insensitively is ASCII). -/
def lowerStr (s : List Char) : List Char := s.map Char.toLower

/-- `String.prototype.includes`: substring test. -/
def jsIncludes (hay needle : List Char) : Bool := decide (needle <:+: hay)

/-- `String.prototype.trim` (JS removes the `jsWhitespace` set from
both ends). -/
def jsTrim (s : List Char) : List Char :=
  ((s.dropWhile jsWhitespace).reverse.dropWhile jsWhitespace).reverse

/-- `String.prototype.slice start end` on a character list. -/
def sliceStr (s : List Char) (a b : Nat) : List Char := (s.take b).drop a

/-- Digit list to natural number, most significant digit first. -/
def digitsToNat (l : List Char) : Nat :=
  l.foldl (fun a c => 10 * a + (c.toNat - 48)) 0

/-- JavaScript `parseFloat`, restricted to the decimal forms reachable
in the classifier (optional sign, digits, optional fraction; no
exponent is ever present in the matched substrings).  `none` models
`NaN`. -/
def jsParseFloat (s : List Char) : Option ℚ :=
  let s1 := s.dropWhile jsWhitespace
  let sign : ℚ := if s1.head? = some '-' then -1 else 1
  let s2 := if s1.head? = some '-' ∨ s1.head? = some '+' then s1.tail else s1
  let ip := s2.takeWhile Char.isDigit
  let rest := s2.dropWhile Char.isDigit
  let fp := if rest.head? = some '.' then rest.tail.takeWhile Char.isDigit else []
  if ip = [] ∧ fp = [] then none
  else some (sign * ((digitsToNat ip : ℚ) + (digitsToNat fp : ℚ) / 10 ^ fp.length))

/-- JavaScript `parseInt(s, 10)`, restricted likewise (optional sign
then decimal digits).  `none` models `NaN`. -/
def jsParseInt (s : List Char) : Option ℤ :=
  let s1 := s.dropWhile jsWhitespace
  let sign : ℤ := if s1.head? = some '-' then -1 else 1
  let s2 := if s1.head? = some '-' ∨ s1.head? = some '+' then s1.tail else s1
  let ip := s2.takeWhile Char.isDigit
  if ip = [] then none else some (sign * (digitsToNat ip : ℤ))

/-- `Math.round`: round half towards positive infinity. -/
def jsRound (q : ℚ) : ℤ := ⌊q + 1 / 2⌋

/-- Decimal rendering of a natural number, as in JS template literals. -/
def natToStr (n : Nat) : List Char := Nat.toDigits 10 n

/-- Decimal rendering of an integer. -/
def intToStr (n : ℤ) : List Char :=
  if n < 0 then '-' :: natToStr n.natAbs else natToStr n.natAbs

/-- Fraction digits of a rational in `[0,1)`, at most `fuel` digits.
Exact for the terminating decimals the extractors produce. -/
def fracDigits : Nat → ℚ → List Char
  | 0, _ => []
  | fuel + 1, q =>
    if q = 0 then []
    else
      Char.ofNat (48 + (⌊q * 10⌋).toNat) :: fracDigits fuel (q * 10 - ⌊q * 10⌋)

/-- Decimal rendering of a non-negative rational with terminating
decimal expansion, as JS prints the extractor's numbers. -/
def qToStrNN (q : ℚ) : List Char :=
  if q - ⌊q⌋ = 0 then natToStr (⌊q⌋).toNat
  else natToStr (⌊q⌋).toNat ++ '.' :: fracDigits 20 (q - ⌊q⌋)

/-- Decimal rendering of a rational (JS number-to-string on the values
the classifier produces). -/
def qToStr (q : ℚ) : List Char :=
  if q < 0 then '-' :: qToStrNN (-q) else qToStrNN q

/-!
## A small backtracking regex engine

Semantics follow JavaScript's backtracking engine: ordered alternation,
greedy quantifiers, leftmost match.  Quantified subexpressions must
consume input to iterate (as in JS, which cuts empty-width repetitions).
All comparisons are ASCII-case-insensitive, matching the `i` flag carried
by every regex in the source file.
-/

/-- Regular-expression syntax, covering exactly the constructs used in
`intentClassifier.ts`: literals, classes, `(?:a|b)`, concatenation,
greedy `*`/`?`, capture groups, `(?!...)`, `\b`, `^`, `$`. -/
inductive RE where
  | eps : RE
  | cls : (Char → Bool) → RE
  | lit : List Char → RE
  | cat : RE → RE → RE
  | alt : RE → RE → RE
  | star : RE → RE
  | ropt : RE → RE
  | grp : Nat → RE → RE
  | nla : RE → RE
  | wb : RE
  | bol : RE
  | eol : RE

/-- Captured spans: (group index, start, end). -/
abbrev Caps := List (Nat × Nat × Nat)

/-- Case-insensitive literal test at position `i`. -/
def litAt : List Char → List Char → Nat → Bool
  | [], _, _ => true
  | c :: cs, s, i =>
    match s[i]? with
    | some d => c.toLower = d.toLower ∧ litAt cs s (i + 1)
    | none => false

/-- Is position `i` of `s` a `\b` word boundary? -/
def wordBoundaryAt (s : List Char) (i : Nat) : Bool :=
  let before := match s[i - 1]? with
    | some c => if i = 0 then false else isWordCh c
    | none => false
  let here := match s[i]? with
    | some c => isWordCh c
    | none => false
  before ≠ here

/-- Size of a regex, used only to budget the matcher's fuel. -/
def reSize : RE → Nat
  | .eps | .cls _ | .wb | .bol | .eol => 1
  | .lit l => l.length + 1
  | .cat a b | .alt a b => reSize a + reSize b + 1
  | .star a | .ropt a | .grp _ a | .nla a => reSize a + 1

/-- Anchored matcher: all ways to match `re` at position `i` of `s`,
as `(end position, captures)` pairs in backtracking-preference order
(JS takes the head).  `fuel` only bounds the recursion depth; the
wrapper `reMatch` supplies more than any match can use. -/
def reMatchF : Nat → RE → List Char → Nat → List (Nat × Caps)
  | 0, _, _, _ => []
  | _ + 1, .eps, _, i => [(i, [])]
  | _ + 1, .cls p, s, i =>
    match s[i]? with
    | some c => if p c then [(i + 1, [])] else []
    | none => []
  | _ + 1, .lit l, s, i => if litAt l s i then [(i + l.length, [])] else []
  | f + 1, .cat a b, s, i =>
    (reMatchF f a s i).flatMap fun r =>
      (reMatchF f b s r.1).map fun r2 => (r2.1, r.2 ++ r2.2)
  | f + 1, .alt a b, s, i => reMatchF f a s i ++ reMatchF f b s i
  | f + 1, .star a, s, i =>
    ((reMatchF f a s i).filter (fun r => i < r.1)).flatMap
      (fun r => (reMatchF f (.star a) s r.1).map fun r2 => (r2.1, r.2 ++ r2.2))
      ++ [(i, [])]
  | f + 1, .ropt a, s, i => reMatchF f a s i ++ [(i, [])]
  | f + 1, .grp n a, s, i =>
    (reMatchF f a s i).map fun r => (r.1, r.2 ++ [(n, i, r.1)])
  | f + 1, .nla a, s, i => if reMatchF f a s i = [] then [(i, [])] else []
  | _ + 1, .wb, s, i => if wordBoundaryAt s i then [(i, [])] else []
  | _ + 1, .bol, _, i => if i = 0 then [(i, [])] else []
  | _ + 1, .eol, s, i => if i = s.length then [(i, [])] else []

/-- Anchored match with ample fuel. -/
def reMatch (re : RE) (s : List Char) (i : Nat) : List (Nat × Caps) :=
  reMatchF ((reSize re + 1) * (s.length + 2)) re s i

/-- `String.prototype.match` / unanchored search: leftmost starting
position, then the engine's preferred match; returns
`(start, end, captures)`. -/
def reSearch (re : RE) (s : List Char) : Option (Nat × Nat × Caps) :=
  (List.range (s.length + 1)).findSome? fun i =>
    match reMatch re s i with
    | [] => none
    | r :: _ => some (i, r.1, r.2)

/-- `RegExp.prototype.test`. -/
def reTest (re : RE) (s : List Char) : Bool := (reSearch re s).isSome

/-- The text captured by group `n`, if the group participated. -/
def capGet (s : List Char) (caps : Caps) (n : Nat) : Option (List Char) :=
  (caps.find? fun c => c.1 == n).map fun c => sliceStr s c.2.1 c.2.2

/-- Ordered alternation `(?:a|b|...)` from a list (left-to-right). -/
def raltL : List RE → RE
  | [] => .eps
  | [r] => r
  | r :: rs => .alt r (raltL rs)

/-- Concatenation of a list of regexes. -/
def rcatL : List RE → RE
  | [] => .eps
  | [r] => r
  | r :: rs => .cat r (rcatL rs)

/-- Case-insensitive literal. -/
def rlit (s : String) : RE := .lit s.toList

/-- Greedy `a+`. -/
def rplus (a : RE) : RE := .cat a (.star a)

/-- `\d+`. -/
def rdigits : RE := rplus (.cls Char.isDigit)

/-- `\s+`. -/
def rspaces : RE := rplus (.cls jsWhitespace)

/-- `.+` (greedy). -/
def rdotplus : RE := rplus (.cls dotCh)

/-!
## Data model (`QueryIntent`, `IntentClassification`)
-/

/-- The `QueryIntent` union type. -/
inductive QueryIntent where
  | product_price
  | product_reviews
  | product_info
  | product_comparison
  | product_search
  | email_request
  | general_question
  | greeting
  | about_me
  | unknown
deriving DecidableEq

/-- `{min, max}` of a price range. -/
structure PriceRange where
  min : ℚ
  max : ℚ
deriving DecidableEq

/-- The `extractedEntities` record.  `none` models an absent
(`undefined`) field. -/
structure ExtractedEntities where
  productName : Option (List Char)
  productCategory : Option (List Char)
  priceRange : Option PriceRange
  limit : Option ℤ
deriving DecidableEq

/-- The `IntentClassification` record. -/
structure IntentClassification where
  intent : QueryIntent
  confidence : ℚ
  requiresData : Bool
  extractedEntities : ExtractedEntities
  reasoning : Option (List Char)
deriving DecidableEq

/-- The TS string of each intent tag (used by template literals). -/
def intentName : QueryIntent → List Char
  | .product_price => strL r"product_price"
  | .product_reviews => strL r"product_reviews"
  | .product_info => strL r"product_info"
  | .product_comparison => strL r"product_comparison"
  | .product_search => strL r"product_search"
  | .email_request => strL r"email_request"
  | .general_question => strL r"general_question"
  | .greeting => strL r"greeting"
  | .about_me => strL r"about_me"
  | .unknown => strL r"unknown"

/-!
## The static `INTENT_PATTERNS` table

Keys in declaration order (= `Object.entries` iteration order).
Each regex of the source is transcribed into the `RE` syntax; all of
them carry the `i` flag, which the engine applies globally.
-/

/-- The word `what's` (apostrophe written out). -/
def whatsL : List Char := strL r"what" ++ [apos, 's']

/-- `Object.keys(INTENT_PATTERNS)` in declaration order. -/
def INTENT_ORDER : List QueryIntent :=
  [.product_price, .product_reviews, .product_info, .product_comparison,
   .product_search, .email_request, .greeting, .about_me, .general_question]

/-- The `keywords` array of each intent. -/
def keywordsOf : QueryIntent → List (List Char)
  | .product_price =>
    [strL r"price", strL r"cost", strL r"expensive", strL r"cheap",
     strL r"rate", strL r"mrp", strL r"discount", strL r"offer", strL r"deal"]
  | .product_reviews =>
    [strL r"review", strL r"comment", strL r"feedback", strL r"opinion",
     strL r"rating", strL r"testimonial", strL r"experience"]
  | .product_info =>
    [strL r"about", strL r"detail", strL r"specification", strL r"spec",
     strL r"feature", strL r"information", strL r"describe"]
  | .product_comparison =>
    [strL r"compare", strL r"comparison", strL r"vs", strL r"versus",
     strL r"difference", strL r"better", strL r"best between"]
  | .product_search =>
    [strL r"best", strL r"top", strL r"recommend", strL r"suggest",
     strL r"good", strL r"popular", strL r"trending"]
  | .email_request =>
    [strL r"email", strL r"mail", strL r"send", strL r"forward", strL r"share"]
  | .greeting =>
    [strL r"hello", strL r"hi", strL r"hey", strL r"greetings",
     strL r"good morning", strL r"good afternoon", strL r"good evening"]
  | .about_me =>
    [strL r"who made", strL r"who created", strL r"who owns", strL r"made by",
     strL r"created by", strL r"who are you", strL r"what are you",
     strL r"tell me about yourself", strL r"about you"]
  | .general_question =>
    [strL r"what", strL r"why", strL r"how", strL r"when", strL r"where",
     strL r"explain", strL r"meaning", strL r"define"]
  | .unknown => []

/-- `reviews?` -/
def reviewsRe : RE := .cat (rlit r"review") (.ropt (rlit r"s"))

/-- `comments?` -/
def commentsRe : RE := .cat (rlit r"comment") (.ropt (rlit r"s"))

/-- `details?` -/
def detailsRe : RE := .cat (rlit r"detail") (.ropt (rlit r"s"))

/-- The `patterns` array of each intent; `none` models the table having
no entry for the intent (only `unknown` is absent). -/
def patternsOfOpt : QueryIntent → Option (List RE)
  | .product_price => some
    [rcatL [raltL [rlit r"what is", .lit whatsL, rlit r"show", rlit r"tell",
        rlit r"get"],
      .ropt (rlit r" the"), rlit r" price ", raltL [rlit r"of", rlit r"for"],
      rlit r" ", .grp 1 rdotplus],
     rcatL [rlit r"how much ", raltL [rlit r"is", rlit r"does", rlit r"cost"],
      rlit r" ", .grp 1 rdotplus],
     rcatL [rlit r"price of ", .grp 1 rdotplus]]
  | .product_reviews => some
    [rcatL [raltL [rlit r"show", rlit r"get", rlit r"find"],
      .ropt (rlit r" me"), .ropt (rlit r" the"), rlit r" ",
      .alt reviewsRe commentsRe, rlit r" ",
      raltL [rlit r"of", rlit r"on", rlit r"for", rlit r"about"],
      rlit r" ", .grp 1 rdotplus],
     rcatL [raltL [rlit r"what are", .lit whatsL], .ropt (rlit r" the"),
      rlit r" ", .alt reviewsRe commentsRe, rlit r" ",
      raltL [rlit r"of", rlit r"on", rlit r"for"], rlit r" ", .grp 1 rdotplus],
     rcatL [rlit r"top ", .ropt rdigits, rlit r" ", .alt reviewsRe commentsRe,
      rlit r" ", raltL [rlit r"of", rlit r"on", rlit r"for"], rlit r" ",
      .grp 1 rdotplus]]
  | .product_info => some
    [rcatL [raltL [rlit r"tell me", rlit r"what is", .lit whatsL,
        rlit r"show me"],
      rlit r" ", raltL [rlit r"about", rlit r"more about"], rlit r" ",
      .grp 1 rdotplus],
     rcatL [raltL [detailsRe, rlit r"info", rlit r"information"], rlit r" ",
      raltL [rlit r"of", rlit r"on", rlit r"about", rlit r"for"], rlit r" ",
      .grp 1 rdotplus],
     rcatL [raltL [.cat (rlit r"specification") (.ropt (rlit r"s")),
        .cat (rlit r"spec") (.ropt (rlit r"s"))],
      rlit r" ", raltL [rlit r"of", rlit r"for"], rlit r" ", .grp 1 rdotplus]]
  | .product_comparison => some
    [rcatL [rlit r"compare ", .grp 1 rdotplus, rlit r" ",
      raltL [rlit r"and", rlit r"vs", rlit r"versus", rlit r"with"],
      rlit r" ", .grp 2 rdotplus],
     rcatL [raltL [rlit r"which is", .lit whatsL], rlit r" better",
      .ropt (.cls fun c => c = ',' ∨ c = ':'), rlit r" ", .grp 1 rdotplus,
      rlit r" or ", .grp 2 rdotplus],
     rcatL [rlit r"difference between ", .grp 1 rdotplus, rlit r" and ",
      .grp 2 rdotplus]]
  | .product_search => some
    [rcatL [raltL [rlit r"best", rlit r"top"], rlit r" ", .ropt rdigits,
      rlit r" ", .grp 1 rdotplus],
     rcatL [rlit r"recommend", .ropt (rlit r" me"), .ropt (rlit r" some"),
      rlit r" ", .grp 1 rdotplus],
     rcatL [raltL [rlit r"show", rlit r"list"], rlit r" ",
      raltL [rlit r"top", rlit r"best"], rlit r" ", .grp 1 rdotplus]]
  | .email_request => some
    [rcatL [raltL [rlit r"email", rlit r"mail", rlit r"send"],
      .ropt (rlit r" me"), .ropt (rlit r" the"), rlit r" ",
      raltL [detailsRe, rlit r"info", rlit r"information"], rlit r" ",
      raltL [rlit r"of", rlit r"on", rlit r"about", rlit r"for"], rlit r" ",
      .grp 1 rdotplus],
     rcatL [rlit r"send ", raltL [detailsRe, rlit r"info"], rlit r" ",
      raltL [rlit r"of", rlit r"on", rlit r"about"], rlit r" ",
      .grp 1 rdotplus, rlit r" to ", .ropt (rlit r"my "),
      raltL [rlit r"email", rlit r"mail"]],
     rcatL [raltL [rlit r"email", rlit r"mail", rlit r"send"], rlit r" ",
      raltL [rlit r"me", rlit r"this", rlit r"that"],
      .ropt (raltL [rlit r" product", rlit r" product details"])],
     rcatL [rlit r"share ", .grp 1 rdotplus, rlit r" ",
      raltL [rlit r"via", rlit r"through", rlit r"by"], rlit r" email"],
     rcatL [raltL [rlit r"email", rlit r"send", rlit r"mail"], rlit r" me ",
      .ropt (raltL [rlit r"about ", rlit r"details of "]), .grp 1 rdotplus]]
  | .greeting => some
    [rcatL [.bol,
      raltL [rlit r"hi", rlit r"hello", rlit r"hey",
        .cat (rlit r"greeting") (.ropt (rlit r"s"))],
      .star (raltL [.cls jsWhitespace, rlit r"!", rlit r"."]), .eol]]
  | .about_me => some
    [rcatL [raltL [rlit r"who made", rlit r"who created", rlit r"who built",
        rlit r"who owns"],
      rlit r" ", raltL [rlit r"you", rlit r"bert5"]],
     rcatL [rlit r"who ", raltL [rlit r"are you", rlit r"is", rlit r"made"]],
     rcatL [rlit r"what ", raltL [rlit r"are you", rlit r"is bert5"]],
     rcatL [rlit r"tell me about ",
      raltL [rlit r"yourself", rlit r"bert5", rlit r"you"]],
     rcatL [raltL [rlit r"about", rlit r"creator", rlit r"creator of"],
      rlit r" ", raltL [rlit r"bert5", rlit r"you"]]]
  | .general_question => some
    [rcatL [rlit r"what is ", .grp 1 rdotplus, rlit r"?"],
     rcatL [rlit r"how does ", .grp 1 rdotplus, rlit r" work",
      .ropt (rlit r"?")],
     rcatL [rlit r"why ", raltL [rlit r"is", rlit r"does"], rlit r" ",
      .grp 1 rdotplus, .ropt (rlit r"?")],
     rcatL [rlit r"explain ", .grp 1 rdotplus]]
  | .unknown => none

/-- The intent's patterns, or `[]` when the table has no entry. -/
def patternsOf (i : QueryIntent) : List RE := (patternsOfOpt i).getD []

/-!
## Entity extractors
-/

/-- `extractLimit`'s regex
`/(?:top|show|get|list|first)\s+(\d+|five|ten|twenty)/i`. -/
def limitRe : RE :=
  rcatL [raltL [rlit r"top", rlit r"show", rlit r"get", rlit r"list",
    rlit r"first"], rspaces,
    .grp 1 (raltL [rdigits, rlit r"five", rlit r"ten", rlit r"twenty"])]

/-- The `numMap` word-number table. -/
def numMapLookup (v : List Char) : Option ℤ :=
  if v = strL r"five" then some 5
  else if v = strL r"ten" then some 10
  else if v = strL r"twenty" then some 20
  else none

/-- `extractLimit`: reject `NaN`, `≤ 0`, `> 100`. -/
def extractLimit (query : List Char) : Option ℤ :=
  match reSearch limitRe query with
  | some m =>
    let cap := (capGet query m.2.2 1).getD []
    let num := match numMapLookup (lowerStr cap) with
      | some n => some n
      | none => jsParseInt cap
    match num with
    | none => none
    | some n => if n ≤ 0 ∨ 100 < n then none else some n
  | none => none

/-- `extractCategory`'s ordered `(regex, category)` table. -/
def categoryPatterns : List (RE × List Char) :=
  [(raltL [rlit r"headphone", rlit r"earphone", rlit r"earbud",
     rlit r"headset"], strL r"headphone"),
   (.alt (rlit r"smartphone")
     (rcatL [.wb, rlit r"phone",
       .nla (.cat (.star (.cls jsWhitespace))
         (raltL [rlit r"charger", rlit r"case", rlit r"cover", rlit r"holder",
           rlit r"stand", rlit r"mount"]))]), strL r"smartphone"),
   (.alt (rcatL [.wb, rlit r"tv", .wb]) (rlit r"television"), strL r"tv"),
   (.alt (rlit r"speaker") (rlit r"audio"), strL r"speaker"),
   (.alt (rlit r"laptop") (rlit r"notebook"), strL r"laptop"),
   (.alt (rlit r"tablet") (rlit r"ipad"), strL r"tablet"),
   (.alt (rlit r"watch") (rlit r"smartwatch"), strL r"watch"),
   (rlit r"camera", strL r"camera")]

/-- `extractCategory`: first matching pattern wins. -/
def extractCategory (query : List Char) : Option (List Char) :=
  (categoryPatterns.find? fun pc => reTest pc.1 query).map fun pc => pc.2

/-- The `BRAND_PATTERNS` brand list, in declaration order. -/
def BRAND_NAMES : List (List Char) :=
  [strL r"iqoo", strL r"oneplus", strL r"samsung", strL r"mi", strL r"boat",
   strL r"sony", strL r"apple", strL r"realme", strL r"redmi", strL r"oppo",
   strL r"vivo", strL r"lg", strL r"dell", strL r"hp", strL r"lenovo",
   strL r"asus", strL r"acer", strL r"msi", strL r"jbl", strL r"bose",
   strL r"philips", strL r"amazon", strL r"xiaomi", strL r"motorola",
   strL r"nokia"]

/-- `\s+\w+` inside the brand regex. -/
def brandWordRe : RE := .cat rspaces (rplus (.cls isWordCh))

/-- `{0,3}` greedy repetition of `\s+\w+`. -/
def brandTailRe : RE :=
  .ropt (.cat brandWordRe (.ropt (.cat brandWordRe (.ropt brandWordRe))))

/-- The per-brand regex `\b(<brand>(?:\s+\w+){0,3})\b`, `i` flag. -/
def brandRe (b : List Char) : RE :=
  rcatL [.wb, .grp 1 (.cat (.lit b) brandTailRe), .wb]

/-- `match && match[1] && match[1].trim()` — the first pattern hit with a
non-empty first capture, trimmed. -/
def firstCapTrim (p : RE) (query : List Char) : Option (List Char) :=
  match reSearch p query with
  | some m =>
    match capGet query m.2.2 1 with
    | some cap => if cap = [] then none else some (jsTrim cap)
    | none => none
  | none => none

/-- `String.prototype.replace` with a non-global regex: remove the first
match. -/
def replaceFirst (p : RE) (s : List Char) : List Char :=
  match reSearch p s with
  | some m => s.take m.1 ++ s.drop m.2.1
  | none => s

/-- `/^(?:what is|what's|show me|tell me|get|find)\s+/i` of the
product-name fallback. -/
def cleanLeadRe : RE :=
  rcatL [.bol, raltL [rlit r"what is", .lit whatsL, rlit r"show me",
    rlit r"tell me", rlit r"get", rlit r"find"], rspaces]

/-- `/\?$/` of the product-name fallback. -/
def cleanTailRe : RE := .cat (rlit r"?") .eol

/-- `extractProductName`: brand-only for `product_search`; otherwise the
intent's declared patterns, then the phrase-stripping fallback. -/
def extractProductName (query : List Char) (intent : QueryIntent) :
    Option (List Char) :=
  if intent = .product_search then
    BRAND_NAMES.findSome? fun brand =>
      if jsIncludes (lowerStr query) brand then
        firstCapTrim (brandRe brand) query
      else none
  else
    match patternsOfOpt intent with
    | none => none
    | some patterns =>
      match patterns.findSome? (fun p => firstCapTrim p query) with
      | some name => some name
      | none =>
        let cleaned :=
          jsTrim (replaceFirst cleanTailRe (replaceFirst cleanLeadRe query))
        if cleaned = [] then none else some cleaned

/-- `parsePrice`: `parseFloat`, then `k` ×1000, then `lakh`/`lac`
×100000; `none` is `NaN`. -/
def parsePrice (value : List Char) : Option ℚ :=
  match jsParseFloat value with
  | none => none
  | some num =>
    let lowerValue := lowerStr value
    if jsIncludes lowerValue (strL r"k") then some (num * 1000)
    else if jsIncludes lowerValue (strL r"lakh") ∨
        jsIncludes lowerValue (strL r"lac") then some (num * 100000)
    else some num

/-- `(\d+(?:\.\d+)?)` — the price number. -/
def priceNumRe : RE := .cat rdigits (.ropt (.cat (rlit r".") rdigits))

/-- `\s*k?(?:lakh|lac)?` — the price suffix. -/
def priceSuffixRe : RE :=
  rcatL [.star (.cls jsWhitespace), .ropt (rlit r"k"),
    .ropt (.alt (rlit r"lakh") (rlit r"lac"))]

/-- The `between|from ... to|and|- ...` range regex. -/
def rangeRe : RE :=
  rcatL [raltL [rlit r"between", rlit r"from"], rspaces, .ropt (rlit r"₹"),
    .grp 1 priceNumRe, priceSuffixRe, rspaces,
    raltL [rlit r"to", rlit r"and", rlit r"-"], rspaces, .ropt (rlit r"₹"),
    .grp 2 priceNumRe, priceSuffixRe]

/-- The `under ...` regex. -/
def underRe : RE :=
  rcatL [rlit r"under", rspaces, .ropt (rlit r"₹"), .grp 1 priceNumRe,
    priceSuffixRe]

/-- The `above ...` regex. -/
def aboveRe : RE :=
  rcatL [rlit r"above", rspaces, .ropt (rlit r"₹"), .grp 1 priceNumRe,
    priceSuffixRe]

/-- `match[0].toLowerCase().includes("k") ? "k" : ""`. -/
def kSuffix (matched : List Char) : List Char :=
  if jsIncludes (lowerStr matched) (strL r"k") then strL r"k" else []

/-- `extractPriceRange`: range, then `under`, then `above` phrasing. -/
def extractPriceRange (query : List Char) : Option PriceRange :=
  match reSearch rangeRe query with
  | some m =>
    let whole := sliceStr query m.1 m.2.1
    match parsePrice ((capGet query m.2.2 1).getD [] ++ kSuffix whole),
        parsePrice ((capGet query m.2.2 2).getD [] ++ kSuffix whole) with
    | some mn, some mx =>
      if mn < 0 ∨ mx < 0 ∨ mx ≤ mn then none else some ⟨mn, mx⟩
    | _, _ => none
  | none =>
    match reSearch underRe query with
    | some m =>
      let whole := sliceStr query m.1 m.2.1
      match parsePrice ((capGet query m.2.2 1).getD [] ++ kSuffix whole) with
      | some mx => if mx ≤ 0 then none else some ⟨0, mx⟩
      | none => none
    | none =>
      match reSearch aboveRe query with
      | some m =>
        let whole := sliceStr query m.1 m.2.1
        match parsePrice ((capGet query m.2.2 1).getD [] ++ kSuffix whole) with
        | some mn => if mn < 0 then none else some ⟨mn, 999999⟩
        | none => none
      | none => none

/-- `isProductRelated`'s keyword list, in order. -/
def productKeywords : List (List Char) :=
  [strL r"smartphone", strL r"phone", strL r"mobile", strL r"cable",
   strL r"charger", strL r"adapter", strL r"usb", strL r"hdmi",
   strL r"wire", strL r"bluetooth", strL r"speaker", strL r"headphone",
   strL r"earphone", strL r"earbud", strL r"tv", strL r"television",
   strL r"remote", strL r"mouse", strL r"keyboard", strL r"laptop",
   strL r"tablet", strL r"watch", strL r"camera", strL r"boat",
   strL r"amazon", strL r"samsung", strL r"mi", strL r"oneplus",
   strL r"apple", strL r"iqoo", strL r"brand"]

/-- `isProductRelated`. -/
def isProductRelated (query : List Char) : Bool :=
  productKeywords.any fun kw => jsIncludes (lowerStr query) kw

/-!
## `classifyIntent`
-/

/-- Number of the intent's keywords found in the lower-cased query. -/
def countKeywordHits (query : List Char) (i : QueryIntent) : Nat :=
  ((keywordsOf i).filter fun kw => jsIncludes (lowerStr query) kw).length

/-- Does any of the intent's patterns match the (raw) query? -/
def anyPatternHit (query : List Char) (i : QueryIntent) : Bool :=
  (patternsOf i).any fun p => reTest p query

/-- The loop body's score: `keywordMatches.length * 2`, plus `5` when a
pattern matches. -/
def intentScore (query : List Char) (i : QueryIntent) : Nat :=
  2 * countKeywordHits query i + (if anyPatternHit query i then 5 else 0)

/-- One iteration of the `for (const [intent, config] of ...)` loop:
strictly larger scores replace the best. -/
def scoreStep (query : List Char) (acc : QueryIntent × Nat)
    (i : QueryIntent) : QueryIntent × Nat :=
  if acc.2 < intentScore query i then (i, intentScore query i) else acc

/-- The scoring loop, started at `("unknown", 0)`. -/
def scoreLoop (query : List Char) : QueryIntent × Nat :=
  INTENT_ORDER.foldl (scoreStep query) (.unknown, 0)

/-- `/^(what|why|how|when|where|who)/i`. -/
def interrogRe : RE :=
  rcatL [.bol, .grp 1 (raltL [rlit r"what", rlit r"why", rlit r"how",
    rlit r"when", rlit r"where", rlit r"who"])]

/-- First fallback: `maxScore === 0 && isProductRelated(query)`. -/
def fallback1 (query : List Char) (bm : QueryIntent × Nat) :
    QueryIntent × Nat :=
  if bm.2 = 0 ∧ isProductRelated query then (QueryIntent.product_info, 3)
  else bm

/-- Second fallback: `maxScore === 0` and the query starts with an
interrogative word. -/
def fallback2 (query : List Char) (bm : QueryIntent × Nat) :
    QueryIntent × Nat :=
  if bm.2 = 0 ∧ reTest interrogRe query then (QueryIntent.general_question, 2)
  else bm

/-- The two fallback `if`s after the loop, in order. -/
def afterFallback (query : List Char) : QueryIntent × Nat :=
  fallback2 query (fallback1 query (scoreLoop query))

/-- `confidence = Math.min(maxScore, 10) / 10`. -/
def confidenceOf (m : Nat) : ℚ := (min m 10 : ℕ) / 10

/-- `parseFloat(confidence.toFixed(2))`. -/
def confRounded (m : Nat) : ℚ := (jsRound (confidenceOf m * 100) : ℚ) / 100

/-- The `dataRequiredIntents` array. -/
def dataRequiredIntents : List QueryIntent :=
  [.product_price, .product_reviews, .product_info, .product_comparison,
   .product_search, .email_request]

/-- The minimum-confidence gate (`MIN_CONFIDENCE = 0.2`). -/
def gateIntent (b : QueryIntent) (m : Nat) : QueryIntent :=
  if confidenceOf m < 1 / 5 ∧ b ≠ .greeting ∧ b ≠ .about_me then
    (if 0 < m then .general_question else .unknown)
  else b

/-- The `reasoning` trace string. -/
def reasoningStr (b : QueryIntent) (m : Nat) : List Char :=
  strL r"Matched " ++ intentName b ++ strL r" with score " ++ natToStr m

/-- `classifyIntent`. -/
def classifyIntent (query : List Char) : IntentClassification :=
  if (jsTrim query).length = 0 then
    ⟨.unknown, 0, false, ⟨none, none, none, none⟩, none⟩
  else
    let bm := afterFallback query
    let b2 := gateIntent bm.1 bm.2
    ⟨b2, confRounded bm.2, decide (b2 ∈ dataRequiredIntents),
     ⟨extractProductName query b2, extractCategory query,
      extractPriceRange query, extractLimit query⟩,
     some (reasoningStr b2 bm.2)⟩

/-- `formatIntentClassification`: the plain-text rendering.  Entity
lines are emitted only for truthy fields (`limit = 0` and an empty
`productName` are falsy in JS); `productCategory` is never rendered. -/
def formatIntentClassification (c : IntentClassification) : List Char :=
  (strL r"Intent: " ++ intentName c.intent ++ strL r" (" ++
    intToStr (jsRound (c.confidence * 100)) ++ strL r"% confident)" ++
    ['\n']) ++
  (strL r"Requires Data: " ++
    (if c.requiresData then strL r"Yes" else strL r"No") ++ ['\n']) ++
  (match c.extractedEntities.productName with
   | some p => if p = [] then [] else
       strL r"Product: " ++ '"' :: p ++ '"' :: ['\n']
   | none => []) ++
  (match c.extractedEntities.limit with
   | some n => if n = 0 then [] else strL r"Limit: " ++ intToStr n ++ ['\n']
   | none => []) ++
  (match c.extractedEntities.priceRange with
   | some pr =>
     strL r"Price Range: " ++ strL r"₹" ++ qToStr pr.min ++ strL r" - " ++
       strL r"₹" ++ qToStr pr.max ++ ['\n']
   | none => [])

/-!
## Helper lemmas
-/

theorem jsIncludes_iff (hay needle : List Char) :
    jsIncludes hay needle = true ↔ needle <:+: hay := by
  simp [jsIncludes]

theorem jsTrim_eq_nil (q : List Char) (h : ∀ c ∈ q, jsWhitespace c = true) :
    jsTrim q = [] := by
  unfold jsTrim
  rw [List.dropWhile_eq_nil_iff.2 h]
  simp

theorem scoreFold_acc_le (q : List Char) (l : List QueryIntent)
    (acc : QueryIntent × Nat) : acc.2 ≤ (l.foldl (scoreStep q) acc).2 := by
  induction l generalizing acc with
  | nil => simp
  | cons x t ih =>
    simp only [List.foldl_cons]
    refine le_trans ?_ (ih (scoreStep q acc x))
    unfold scoreStep
    split
    · exact le_of_lt (by assumption)
    · exact le_rfl

theorem scoreFold_le (q : List Char) (l : List QueryIntent) :
    ∀ (acc : QueryIntent × Nat) (i : QueryIntent), i ∈ l →
      intentScore q i ≤ (l.foldl (scoreStep q) acc).2 := by
  induction l with
  | nil => intro acc i hi; cases hi
  | cons x t ih =>
    intro acc i hi
    simp only [List.foldl_cons]
    rcases List.mem_cons.1 hi with rfl | hmem
    · refine le_trans ?_ (scoreFold_acc_le q t (scoreStep q acc i))
      unfold scoreStep
      split
      · exact le_rfl
      · omega
    · exact ih (scoreStep q acc x) i hmem

theorem scoreFold_fix (q : List Char) (l : List QueryIntent) :
    ∀ acc : QueryIntent × Nat, (l.foldl (scoreStep q) acc).2 = acc.2 →
      l.foldl (scoreStep q) acc = acc := by
  induction l with
  | nil => intro acc _; simp
  | cons x t ih =>
    intro acc h
    simp only [List.foldl_cons] at h ⊢
    by_cases hup : acc.2 < intentScore q x
    · exfalso
      have h1 : (scoreStep q acc x).2 ≤ acc.2 := by
        calc (scoreStep q acc x).2
            ≤ (t.foldl (scoreStep q) (scoreStep q acc x)).2 :=
              scoreFold_acc_le q t _
          _ = acc.2 := h
      unfold scoreStep at h1
      rw [if_pos hup] at h1
      simp at h1
      omega
    · have hx : scoreStep q acc x = acc := by
        unfold scoreStep; rw [if_neg hup]
      rw [hx] at h ⊢
      exact ih acc h

theorem scoreFold_decomp (q : List Char) (l : List QueryIntent) :
    ∀ acc : QueryIntent × Nat, acc.2 < (l.foldl (scoreStep q) acc).2 →
    ∃ l₁ l₂, l = l₁ ++ (l.foldl (scoreStep q) acc).1 :: l₂ ∧
      intentScore q (l.foldl (scoreStep q) acc).1 = (l.foldl (scoreStep q) acc).2 ∧
      ∀ i ∈ l₁, intentScore q i < (l.foldl (scoreStep q) acc).2 := by
  induction l with
  | nil => intro acc h; simp at h
  | cons x t ih =>
    intro acc h
    simp only [List.foldl_cons] at h ⊢
    by_cases hup : acc.2 < intentScore q x
    · by_cases hrest :
        (scoreStep q acc x).2 < (t.foldl (scoreStep q) (scoreStep q acc x)).2
      · obtain ⟨l₁, l₂, hsplit, hsc, hlt⟩ := ih (scoreStep q acc x) hrest
        refine ⟨x :: l₁, l₂, ?_, hsc, ?_⟩
        · rw [List.cons_append, ← hsplit]
        · intro j hj
          rcases List.mem_cons.1 hj with rfl | hmem
          · have hi2 : intentScore q j ≤ (scoreStep q acc j).2 := by
              unfold scoreStep; rw [if_pos hup]
            omega
          · exact hlt j hmem
      · have heq : (t.foldl (scoreStep q) (scoreStep q acc x)).2 =
            (scoreStep q acc x).2 :=
          le_antisymm (not_lt.1 hrest) (scoreFold_acc_le q t _)
        rw [scoreFold_fix q t _ heq]
        have hx : scoreStep q acc x = (x, intentScore q x) := by
          unfold scoreStep; rw [if_pos hup]
        rw [hx]
        exact ⟨[], t, rfl, rfl, by simp⟩
    · have hx : scoreStep q acc x = acc := by
        unfold scoreStep; rw [if_neg hup]
      rw [hx] at h ⊢
      obtain ⟨l₁, l₂, hsplit, hsc, hlt⟩ := ih acc h
      refine ⟨x :: l₁, l₂, ?_, hsc, ?_⟩
      · rw [List.cons_append, ← hsplit]
      · intro j hj
        rcases List.mem_cons.1 hj with rfl | hmem
        · omega
        · exact hlt j hmem

theorem scoreLoop_zero (q : List Char) (h : (scoreLoop q).2 = 0) :
    scoreLoop q = (.unknown, 0) := by
  unfold scoreLoop at h ⊢
  exact scoreFold_fix q INTENT_ORDER (.unknown, 0) h

theorem intentScore_zero_or_ge_two (q : List Char) (i : QueryIntent) :
    intentScore q i = 0 ∨ 2 ≤ intentScore q i := by
  unfold intentScore
  rcases Nat.eq_zero_or_pos (countKeywordHits q i) with h | h
  · rw [h]; split <;> omega
  · right; omega

theorem scoreLoop_zero_or_ge_two (q : List Char) :
    (scoreLoop q).2 = 0 ∨ 2 ≤ (scoreLoop q).2 := by
  rcases Nat.eq_zero_or_pos (scoreLoop q).2 with h | h
  · exact Or.inl h
  · right
    have h' : ((QueryIntent.unknown, 0) : QueryIntent × Nat).2 <
        (INTENT_ORDER.foldl (scoreStep q) (.unknown, 0)).2 := h
    obtain ⟨l₁, l₂, _, hsc, _⟩ := scoreFold_decomp q INTENT_ORDER _ h'
    have hpar := intentScore_zero_or_ge_two q
      ((INTENT_ORDER.foldl (scoreStep q) (.unknown, 0)).1)
    unfold scoreLoop at h ⊢
    omega

theorem afterFallback_zero_or_ge_two (q : List Char) :
    (afterFallback q).2 = 0 ∨ 2 ≤ (afterFallback q).2 := by
  unfold afterFallback fallback2 fallback1
  split
  · simp
  · split
    · simp
    · exact scoreLoop_zero_or_ge_two q

theorem afterFallback_zero_unknown (q : List Char)
    (h : (afterFallback q).2 = 0) : (afterFallback q).1 = .unknown := by
  unfold afterFallback fallback2 fallback1 at h ⊢
  by_cases h1 : (scoreLoop q).2 = 0 ∧ isProductRelated q = true
  · rw [if_pos h1] at h ⊢
    rw [if_neg (by simp)] at h
    simp at h
  · rw [if_neg h1] at h ⊢
    by_cases h2 : (scoreLoop q).2 = 0 ∧ reTest interrogRe q = true
    · rw [if_pos h2] at h
      simp at h
    · rw [if_neg h2] at h ⊢
      rw [scoreLoop_zero q h]

theorem jsRound_natCast (n : ℕ) : jsRound (n : ℚ) = n := by
  unfold jsRound
  rw [Int.floor_eq_iff]
  constructor
  · push_cast; linarith
  · push_cast; linarith

theorem confRounded_eq (m : Nat) :
    confRounded m = ((min m 10 : ℕ) : ℚ) / 10 := by
  unfold confRounded confidenceOf
  have h1 : ((min m 10 : ℕ) : ℚ) / 10 * 100 = ((min m 10 * 10 : ℕ) : ℚ) := by
    push_cast; ring
  rw [h1, jsRound_natCast]
  push_cast
  ring

theorem confidenceOf_lt_iff (m : Nat) :
    confidenceOf m < 1 / 5 ↔ m < 2 := by
  unfold confidenceOf
  rw [div_lt_div_iff₀ (by norm_num) (by norm_num)]
  constructor
  · intro h
    by_contra hge
    push_neg at hge
    have : (2 : ℚ) ≤ ((min m 10 : ℕ) : ℚ) := by
      have : 2 ≤ min m 10 := by omega
      exact_mod_cast this
    linarith
  · intro h
    have : ((min m 10 : ℕ) : ℚ) < 2 := by
      have : min m 10 < 2 := by omega
      exact_mod_cast this
    linarith

theorem gateIntent_eq (b : QueryIntent) (m : Nat)
    (h0 : m = 0 → b = .unknown) (h2 : m = 0 ∨ 2 ≤ m) :
    gateIntent b m = b := by
  unfold gateIntent
  split
  · rename_i hcond
    have hm : m < 2 := (confidenceOf_lt_iff m).1 hcond.1
    have hm0 : m = 0 := by omega
    rw [if_neg (by omega), h0 hm0]
  · rfl

/-!
## Character classes of price captures

The price regexes capture through group bodies built from `\d` and a
literal dot, so every captured character is a digit or lower-cases to
`.`.  These lemmas give the resulting facts about whitespace, sign
characters and lower-casing that the suffix-resolution proof needs.
-/

/-- Characters a price-number capture can contain: the `\d` class, or a
character lower-casing to the literal dot. -/
def digitDotP (c : Char) : Bool := c.isDigit || c.toLower = '.'

theorem isDigit_toNat (c : Char) (h : c.isDigit = true) :
    48 ≤ c.toNat ∧ c.toNat ≤ 57 := by
  unfold Char.isDigit at h
  rw [Bool.and_eq_true] at h
  exact ⟨UInt32.le_toNat_of_le (by norm_num [UInt32.size])
      (of_decide_eq_true h.1),
    UInt32.toNat_le_of_le (by norm_num [UInt32.size])
      (of_decide_eq_true h.2)⟩

theorem toLower_fix (c : Char) (h : ¬(65 ≤ c.toNat ∧ c.toNat ≤ 90)) :
    c.toLower = c := by
  unfold Char.toLower
  dsimp only
  exact if_neg (fun hc => h ⟨hc.1, hc.2⟩)

theorem digit_toLower (c : Char) (h : c.isDigit = true) : c.toLower = c :=
  toLower_fix c (by have := isDigit_toNat c h; omega)

theorem digitDotP_not_ws (c : Char) (h : digitDotP c = true) :
    jsWhitespace c = false := by
  unfold jsWhitespace
  rw [decide_eq_false_iff_not]
  rw [digitDotP, Bool.or_eq_true, decide_eq_true_eq] at h
  intro hws
  rcases h with hd | hdot
  · obtain ⟨hb1, hb2⟩ := isDigit_toNat c hd
    rcases hws with hc | hc | hc | hc | hc | hc | hc | hc | hc | hc | hc
    · rw [hc] at hb1; exact absurd hb1 (by decide)
    all_goals omega
  · rcases hws with hc | hc | hc | hc | hc | hc | hc | hc | hc | hc | hc
    · rw [hc] at hdot; exact absurd hdot (by decide)
    all_goals (
      rw [toLower_fix c (by omega)] at hdot
      subst hdot
      exact absurd hc (by decide))

theorem digitDotP_ne_sign (c : Char) (h : digitDotP c = true) :
    c ≠ '-' ∧ c ≠ '+' := by
  rw [digitDotP, Bool.or_eq_true, decide_eq_true_eq] at h
  constructor
  · intro hc
    subst hc
    rcases h with hd | hdot
    · exact absurd hd (by decide)
    · exact absurd hdot (by decide)
  · intro hc
    subst hc
    rcases h with hd | hdot
    · exact absurd hd (by decide)
    · exact absurd hdot (by decide)

theorem lowerStr_digitDot (cap : List Char)
    (hP : ∀ c ∈ cap, digitDotP c = true) :
    ∀ c ∈ lowerStr cap, c.isDigit = true ∨ c = '.' := by
  intro c hc
  unfold lowerStr at hc
  obtain ⟨c0, hc0, rfl⟩ := List.mem_map.1 hc
  have h := hP c0 hc0
  rw [digitDotP, Bool.or_eq_true, decide_eq_true_eq] at h
  rcases h with hd | hdot
  · left
    rw [digit_toLower c0 hd]
    exact hd
  · right
    exact hdot

theorem includes_false_of_lower (cap : List Char)
    (hP : ∀ c ∈ cap, digitDotP c = true) (needle : List Char) (t : Char)
    (ht : t ∈ needle) (h1 : t.isDigit = false) (h2 : t ≠ '.') :
    jsIncludes (lowerStr cap) needle = false := by
  by_contra hcon
  rw [Bool.not_eq_false, jsIncludes_iff] at hcon
  have hmem := hcon.subset ht
  rcases lowerStr_digitDot cap hP t hmem with hd | hd
  · rw [hd] at h1
    exact Bool.noConfusion h1
  · exact h2 hd

theorem dropWhile_eq_self_of_head (p : Char → Bool) (l : List Char)
    (h : ∀ c, l.head? = some c → p c = false) : l.dropWhile p = l := by
  cases l with
  | nil => rfl
  | cons c t =>
    rw [List.dropWhile_cons, h c rfl]
    simp

theorem takeWhile_append_single (p : Char → Bool) (x : Char)
    (hx : p x = false) :
    ∀ l : List Char, (l ++ [x]).takeWhile p = l.takeWhile p := by
  intro l
  induction l with
  | nil =>
    rw [List.nil_append, List.takeWhile_cons_of_neg (by rw [hx]; decide)]
    rfl
  | cons c t ih =>
    rw [List.cons_append, List.takeWhile_cons, List.takeWhile_cons]
    by_cases hc : p c = true
    · rw [hc, if_pos rfl, if_pos rfl, ih]
    · rw [Bool.not_eq_true] at hc
      rw [hc]
      simp

theorem dropWhile_append_single (p : Char → Bool) (x : Char)
    (hx : p x = false) :
    ∀ l : List Char, (l ++ [x]).dropWhile p = l.dropWhile p ++ [x] := by
  intro l
  induction l with
  | nil =>
    rw [List.nil_append, List.dropWhile_cons, hx]
    simp
  | cons c t ih =>
    rw [List.cons_append, List.dropWhile_cons, List.dropWhile_cons]
    by_cases hc : p c = true
    · rw [hc, if_pos rfl, if_pos rfl, ih]
    · rw [Bool.not_eq_true] at hc
      rw [hc]
      simp

/-- Appending the letter `k` to a token of capture characters does not
change its `parseFloat` value (the parse stops before the `k`). -/
theorem jsParseFloat_append_k (s : List Char)
    (hP : ∀ c ∈ s, digitDotP c = true) :
    jsParseFloat (s ++ ['k']) = jsParseFloat s := by
  have hkd : Char.isDigit 'k' = false := by decide
  have hhead : ∀ c, (s ++ ['k']).head? = some c → digitDotP c = true ∨ c = 'k' := by
    intro c hc
    cases s with
    | nil =>
      rw [List.nil_append, List.head?_cons] at hc
      injection hc with hc
      exact Or.inr hc.symm
    | cons d t =>
      rw [List.cons_append, List.head?_cons] at hc
      injection hc with hc
      subst hc
      exact Or.inl (hP d (List.mem_cons_self _ _))
  have hhead2 : ∀ c, s.head? = some c → digitDotP c = true := by
    intro c hc
    cases s with
    | nil => simp at hc
    | cons d t =>
      rw [List.head?_cons] at hc
      injection hc with hc
      subst hc
      exact hP d (List.mem_cons_self _ _)
  have hm1 : ¬((s ++ ['k']).head? = some '-') := by
    intro hc
    rcases hhead '-' hc with hd | hd
    · exact (digitDotP_ne_sign _ hd).1 rfl
    · exact absurd hd (by decide)
  have hp1 : ¬((s ++ ['k']).head? = some '+') := by
    intro hc
    rcases hhead '+' hc with hd | hd
    · exact (digitDotP_ne_sign _ hd).2 rfl
    · exact absurd hd (by decide)
  have hm2 : ¬(s.head? = some '-') :=
    fun hc => (digitDotP_ne_sign _ (hhead2 '-' hc)).1 rfl
  have hp2 : ¬(s.head? = some '+') :=
    fun hc => (digitDotP_ne_sign _ (hhead2 '+' hc)).2 rfl
  have h1 : (s ++ ['k']).dropWhile jsWhitespace = s ++ ['k'] := by
    apply dropWhile_eq_self_of_head
    intro c hc
    rcases hhead c hc with hd | hd
    · exact digitDotP_not_ws c hd
    · subst hd; decide
  have h2 : s.dropWhile jsWhitespace = s :=
    dropWhile_eq_self_of_head _ _
      (fun c hc => digitDotP_not_ws c (hhead2 c hc))
  unfold jsParseFloat
  dsimp only
  rw [h1, h2, if_neg hm1, if_neg hm2,
    if_neg (show ¬((s ++ ['k']).head? = some '-' ∨
        (s ++ ['k']).head? = some '+') from fun h => h.elim hm1 hp1),
    if_neg (show ¬(s.head? = some '-' ∨ s.head? = some '+') from
      fun h => h.elim hm2 hp2),
    takeWhile_append_single Char.isDigit 'k' hkd s,
    dropWhile_append_single Char.isDigit 'k' hkd s]
  cases hdl : s.dropWhile Char.isDigit with
  | nil =>
    rw [List.nil_append,
      if_neg (show ¬((['k'] : List Char).head? = some '.') by decide),
      if_neg (show ¬(([] : List Char).head? = some '.') by simp)]
  | cons d ds =>
    rw [List.cons_append, List.head?_cons, List.head?_cons]
    by_cases hd : d = '.'
    · subst hd
      rw [if_pos rfl, if_pos rfl, List.tail_cons, List.tail_cons,
        takeWhile_append_single Char.isDigit 'k' hkd ds]
    · rw [if_neg (show ¬(some d = some '.') from
          fun h => hd (Option.some.inj h)),
        if_neg (show ¬(some d = some '.') from
          fun h => hd (Option.some.inj h))]

/-- The universal suffix-resolution rule: on a capture token (digit /
dot characters), `parsePrice` of the token plus the match-wide `k`
suffix is the `parseFloat` value scaled by 1,000 exactly when the
letter `k` occurs anywhere in the whole matched text, and unscaled
otherwise.  In particular the ×100,000 branch of `parsePrice` is never
taken on a capture. -/
theorem parsePrice_capture (cap whole : List Char)
    (hP : ∀ c ∈ cap, digitDotP c = true) :
    parsePrice (cap ++ kSuffix whole) =
      (jsParseFloat cap).map (fun a =>
        a * (if jsIncludes (lowerStr whole) (strL r"k") = true then (1000 : ℚ)
          else 1)) := by
  unfold kSuffix
  by_cases hk : jsIncludes (lowerStr whole) (strL r"k") = true
  · rw [if_pos hk, if_pos hk,
      show (strL r"k") = ['k'] from rfl]
    unfold parsePrice
    rw [jsParseFloat_append_k cap hP]
    cases hf : jsParseFloat cap with
    | none => rfl
    | some a =>
      dsimp only
      have hkin : jsIncludes (lowerStr (cap ++ ['k'])) (strL r"k") = true := by
        rw [jsIncludes_iff]
        refine ⟨lowerStr cap, [], ?_⟩
        unfold lowerStr
        rw [List.map_append]
        simp [strL]
      rw [hkin, if_pos rfl]
      rfl
  · rw [if_neg hk, if_neg hk, List.append_nil]
    unfold parsePrice
    cases hf : jsParseFloat cap with
    | none => rfl
    | some a =>
      dsimp only
      rw [includes_false_of_lower cap hP (strL r"k") 'k' (by decide)
          (by decide) (by decide),
        includes_false_of_lower cap hP (strL r"lakh") 'l' (by decide)
          (by decide) (by decide),
        includes_false_of_lower cap hP (strL r"lac") 'l' (by decide)
          (by decide) (by decide)]
      simp

/-!
## Capture soundness of the matcher

`COnly P re` says every character `re` can consume satisfies `P`;
`CapP P re` says every capture group inside `re` has a `COnly P` body.
The two lemmas below push these through `reMatchF`, giving: every
character inside a captured span of a match result satisfies `P`.
-/

/-- Syntactic guarantee that a regex only consumes `P`-characters. -/
inductive COnly (P : Char → Bool) : RE → Prop
  | eps : COnly P .eps
  | cls (pc : Char → Bool) (h : ∀ c, pc c = true → P c = true) :
      COnly P (.cls pc)
  | lit (l : List Char)
      (h : ∀ c lc, lc ∈ l → c.toLower = lc.toLower → P c = true) :
      COnly P (.lit l)
  | cat (a b : RE) (ha : COnly P a) (hb : COnly P b) : COnly P (.cat a b)
  | alt (a b : RE) (ha : COnly P a) (hb : COnly P b) : COnly P (.alt a b)
  | star (a : RE) (ha : COnly P a) : COnly P (.star a)
  | ropt (a : RE) (ha : COnly P a) : COnly P (.ropt a)
  | grp (n : Nat) (a : RE) (ha : COnly P a) : COnly P (.grp n a)
  | nla (a : RE) : COnly P (.nla a)
  | wb : COnly P .wb
  | bol : COnly P .bol
  | eol : COnly P .eol

/-- Syntactic guarantee that every capture group body only matches
`P`-characters. -/
inductive CapP (P : Char → Bool) : RE → Prop
  | eps : CapP P .eps
  | cls (pc : Char → Bool) : CapP P (.cls pc)
  | lit (l : List Char) : CapP P (.lit l)
  | cat (a b : RE) (ha : CapP P a) (hb : CapP P b) : CapP P (.cat a b)
  | alt (a b : RE) (ha : CapP P a) (hb : CapP P b) : CapP P (.alt a b)
  | star (a : RE) (ha : CapP P a) : CapP P (.star a)
  | ropt (a : RE) (ha : CapP P a) : CapP P (.ropt a)
  | grp (n : Nat) (a : RE) (hc : COnly P a) (ha : CapP P a) :
      CapP P (.grp n a)
  | nla (a : RE) : CapP P (.nla a)
  | wb : CapP P .wb
  | bol : CapP P .bol
  | eol : CapP P .eol

theorem litAt_chars : ∀ (l s : List Char) (i : Nat), litAt l s i = true →
    ∀ k c, i ≤ k → k < i + l.length → s[k]? = some c →
    ∃ lc ∈ l, c.toLower = lc.toLower := by
  intro l
  induction l with
  | nil =>
    intro s i _ k c hik hkl _
    rw [List.length_nil] at hkl
    omega
  | cons c0 t ih =>
    intro s i hlit k c hik hkl hsk
    unfold litAt at hlit
    cases hsi : s[i]? with
    | none => rw [hsi] at hlit; exact Bool.noConfusion hlit
    | some d =>
      rw [hsi] at hlit
      have hlit2 := of_decide_eq_true hlit
      by_cases hk : k = i
      · subst hk
        rw [hsi] at hsk
        injection hsk with hdc
        refine ⟨c0, List.mem_cons_self _ _, ?_⟩
        rw [← hdc]
        exact hlit2.1.symm
      · obtain ⟨lc, hlc, he⟩ := ih s (i + 1) hlit2.2 k c (by omega)
          (by rw [List.length_cons] at hkl; omega) hsk
        exact ⟨lc, List.mem_cons_of_mem _ hlc, he⟩

/-- Every character consumed by a `COnly P` regex satisfies `P`. -/
theorem reMatch_chars (P : Char → Bool) :
    ∀ (f : Nat) (re : RE), COnly P re → ∀ (s : List Char) (i j : Nat)
      (caps : Caps), (j, caps) ∈ reMatchF f re s i →
      ∀ k c, i ≤ k → k < j → s[k]? = some c → P c = true := by
  intro f
  induction f with
  | zero =>
    intro re _ s i j caps hmem
    simp [reMatchF] at hmem
  | succ f ih =>
    intro re hre s i j caps hmem k c hik hkj hsk
    cases hre with
    | eps =>
      simp only [reMatchF, List.mem_singleton, Prod.mk.injEq] at hmem
      obtain ⟨hj, -⟩ := hmem
      omega
    | cls pc hpc =>
      simp only [reMatchF] at hmem
      split at hmem
      · rename_i d hsi
        split at hmem
        · rename_i hpd
          simp only [List.mem_singleton, Prod.mk.injEq] at hmem
          obtain ⟨hj, -⟩ := hmem
          have hki : k = i := by omega
          subst hki
          rw [hsi] at hsk
          injection hsk with hdc
          subst hdc
          exact hpc d hpd
        · simp at hmem
      · simp at hmem
    | lit l hl =>
      simp only [reMatchF] at hmem
      split at hmem
      · rename_i hlit
        simp only [List.mem_singleton, Prod.mk.injEq] at hmem
        obtain ⟨hj, -⟩ := hmem
        subst hj
        obtain ⟨lc, hlc, he⟩ := litAt_chars l s i hlit k c hik hkj hsk
        exact hl c lc hlc he
      · simp at hmem
    | cat a b ha hb =>
      simp only [reMatchF, List.mem_flatMap, List.mem_map] at hmem
      obtain ⟨rm, hrm, r2, hr2, heq⟩ := hmem
      rw [Prod.mk.injEq] at heq
      obtain ⟨hj, -⟩ := heq
      subst hj
      by_cases hkm : k < rm.1
      · exact ih a ha s i rm.1 rm.2 hrm k c hik hkm hsk
      · exact ih b hb s rm.1 r2.1 r2.2 hr2 k c (by omega) hkj hsk
    | alt a b ha hb =>
      simp only [reMatchF, List.mem_append] at hmem
      rcases hmem with hmem | hmem
      · exact ih a ha s i j caps hmem k c hik hkj hsk
      · exact ih b hb s i j caps hmem k c hik hkj hsk
    | star a ha =>
      simp only [reMatchF, List.mem_append, List.mem_flatMap, List.mem_map,
        List.mem_filter, List.mem_singleton] at hmem
      rcases hmem with ⟨rb, ⟨hrb, -⟩, r2, hr2, heq⟩ | heq
      · rw [Prod.mk.injEq] at heq
        obtain ⟨hj, -⟩ := heq
        subst hj
        by_cases hkm : k < rb.1
        · exact ih a ha s i rb.1 rb.2 hrb k c hik hkm hsk
        · exact ih (.star a) (COnly.star a ha) s rb.1 r2.1 r2.2 hr2 k c
            (by omega) hkj hsk
      · rw [Prod.mk.injEq] at heq
        obtain ⟨hj, -⟩ := heq
        omega
    | ropt a ha =>
      simp only [reMatchF, List.mem_append, List.mem_singleton] at hmem
      rcases hmem with hmem | heq
      · exact ih a ha s i j caps hmem k c hik hkj hsk
      · rw [Prod.mk.injEq] at heq
        obtain ⟨hj, -⟩ := heq
        omega
    | grp n a ha =>
      simp only [reMatchF, List.mem_map] at hmem
      obtain ⟨rb, hrb, heq⟩ := hmem
      rw [Prod.mk.injEq] at heq
      obtain ⟨hj, -⟩ := heq
      subst hj
      exact ih a ha s i rb.1 rb.2 hrb k c hik hkj hsk
    | nla a =>
      simp only [reMatchF] at hmem
      split at hmem
      · simp only [List.mem_singleton, Prod.mk.injEq] at hmem
        obtain ⟨hj, -⟩ := hmem
        omega
      · simp at hmem
    | wb =>
      simp only [reMatchF] at hmem
      split at hmem
      · simp only [List.mem_singleton, Prod.mk.injEq] at hmem
        obtain ⟨hj, -⟩ := hmem
        omega
      · simp at hmem
    | bol =>
      simp only [reMatchF] at hmem
      split at hmem
      · simp only [List.mem_singleton, Prod.mk.injEq] at hmem
        obtain ⟨hj, -⟩ := hmem
        omega
      · simp at hmem
    | eol =>
      simp only [reMatchF] at hmem
      split at hmem
      · simp only [List.mem_singleton, Prod.mk.injEq] at hmem
        obtain ⟨hj, -⟩ := hmem
        omega
      · simp at hmem

/-- Every character inside a captured span of a `CapP P` regex match
satisfies `P`. -/
theorem reMatch_capChars (P : Char → Bool) :
    ∀ (f : Nat) (re : RE), CapP P re → ∀ (s : List Char) (i j : Nat)
      (caps : Caps), (j, caps) ∈ reMatchF f re s i →
      ∀ n a b, (n, a, b) ∈ caps →
      ∀ k c, a ≤ k → k < b → s[k]? = some c → P c = true := by
  intro f
  induction f with
  | zero =>
    intro re _ s i j caps hmem
    simp [reMatchF] at hmem
  | succ f ih =>
    intro re hre s i j caps hmem n a b hcap k c hak hkb hsk
    cases hre with
    | eps =>
      simp only [reMatchF, List.mem_singleton, Prod.mk.injEq] at hmem
      obtain ⟨-, hc⟩ := hmem
      subst hc
      simp at hcap
    | cls pc =>
      simp only [reMatchF] at hmem
      split at hmem
      · split at hmem
        · simp only [List.mem_singleton, Prod.mk.injEq] at hmem
          obtain ⟨-, hc⟩ := hmem
          subst hc
          simp at hcap
        · simp at hmem
      · simp at hmem
    | lit l =>
      simp only [reMatchF] at hmem
      split at hmem
      · simp only [List.mem_singleton, Prod.mk.injEq] at hmem
        obtain ⟨-, hc⟩ := hmem
        subst hc
        simp at hcap
      · simp at hmem
    | cat ar br ha hb =>
      simp only [reMatchF, List.mem_flatMap, List.mem_map] at hmem
      obtain ⟨rm, hrm, r2, hr2, heq⟩ := hmem
      rw [Prod.mk.injEq] at heq
      obtain ⟨-, hc⟩ := heq
      subst hc
      rw [List.mem_append] at hcap
      rcases hcap with hcap | hcap
      · exact ih ar ha s i rm.1 rm.2 hrm n a b hcap k c hak hkb hsk
      · exact ih br hb s rm.1 r2.1 r2.2 hr2 n a b hcap k c hak hkb hsk
    | alt ar br ha hb =>
      simp only [reMatchF, List.mem_append] at hmem
      rcases hmem with hmem | hmem
      · exact ih ar ha s i j caps hmem n a b hcap k c hak hkb hsk
      · exact ih br hb s i j caps hmem n a b hcap k c hak hkb hsk
    | star ar ha =>
      simp only [reMatchF, List.mem_append, List.mem_flatMap, List.mem_map,
        List.mem_filter, List.mem_singleton] at hmem
      rcases hmem with ⟨rb, ⟨hrb, -⟩, r2, hr2, heq⟩ | heq
      · rw [Prod.mk.injEq] at heq
        obtain ⟨-, hc⟩ := heq
        subst hc
        rw [List.mem_append] at hcap
        rcases hcap with hcap | hcap
        · exact ih ar ha s i rb.1 rb.2 hrb n a b hcap k c hak hkb hsk
        · exact ih (.star ar) (CapP.star ar ha) s rb.1 r2.1 r2.2 hr2 n a b
            hcap k c hak hkb hsk
      · rw [Prod.mk.injEq] at heq
        obtain ⟨-, hc⟩ := heq
        subst hc
        simp at hcap
    | ropt ar ha =>
      simp only [reMatchF, List.mem_append, List.mem_singleton] at hmem
      rcases hmem with hmem | heq
      · exact ih ar ha s i j caps hmem n a b hcap k c hak hkb hsk
      · rw [Prod.mk.injEq] at heq
        obtain ⟨-, hc⟩ := heq
        subst hc
        simp at hcap
    | grp n0 ar hc0 ha =>
      simp only [reMatchF, List.mem_map] at hmem
      obtain ⟨rb, hrb, heq⟩ := hmem
      rw [Prod.mk.injEq] at heq
      obtain ⟨-, hc⟩ := heq
      subst hc
      rw [List.mem_append, List.mem_singleton] at hcap
      rcases hcap with hcap | heqc
      · exact ih ar ha s i rb.1 rb.2 hrb n a b hcap k c hak hkb hsk
      · rw [Prod.mk.injEq, Prod.mk.injEq] at heqc
        obtain ⟨-, ha2, hb2⟩ := heqc
        rw [ha2] at hak
        rw [hb2] at hkb
        exact reMatch_chars P f ar hc0 s i rb.1 rb.2 hrb k c hak hkb hsk
    | nla ar =>
      simp only [reMatchF] at hmem
      split at hmem
      · simp only [List.mem_singleton, Prod.mk.injEq] at hmem
        obtain ⟨-, hc⟩ := hmem
        subst hc
        simp at hcap
      · simp at hmem
    | wb =>
      simp only [reMatchF] at hmem
      split at hmem
      · simp only [List.mem_singleton, Prod.mk.injEq] at hmem
        obtain ⟨-, hc⟩ := hmem
        subst hc
        simp at hcap
      · simp at hmem
    | bol =>
      simp only [reMatchF] at hmem
      split at hmem
      · simp only [List.mem_singleton, Prod.mk.injEq] at hmem
        obtain ⟨-, hc⟩ := hmem
        subst hc
        simp at hcap
      · simp at hmem
    | eol =>
      simp only [reMatchF] at hmem
      split at hmem
      · simp only [List.mem_singleton, Prod.mk.injEq] at hmem
        obtain ⟨-, hc⟩ := hmem
        subst hc
        simp at hcap
      · simp at hmem

/-- Indexing into a dropped prefix shifts the index. -/
theorem getElem?_drop_add (l : List Char) :
    ∀ i j : Nat, (l.drop i)[j]? = l[i + j]? := by
  induction l with
  | nil => intro i j; simp
  | cons c t ih =>
    intro i j
    cases i with
    | zero => rw [List.drop_zero, Nat.zero_add]
    | succ i =>
      rw [List.drop_succ_cons, ih i j,
        show i + 1 + j = i + j + 1 by omega, List.getElem?_cons_succ]

/-- A character of `sliceStr s a b` occurs in `s` at an index in
`[a, b)`. -/
theorem slice_index (s : List Char) (a b : Nat) (c : Char)
    (h : c ∈ sliceStr s a b) :
    ∃ k, a ≤ k ∧ k < b ∧ s[k]? = some c := by
  unfold sliceStr at h
  obtain ⟨p, hp, hgp⟩ := List.mem_iff_getElem.1 h
  have h1 : ((s.take b).drop a).length = min b s.length - a := by simp
  have hlt : a + p < b := by omega
  refine ⟨a + p, Nat.le_add_right a p, hlt, ?_⟩
  have hq : ((s.take b).drop a)[p]? = some c := by
    rw [List.getElem?_eq_getElem hp, hgp]
  rw [getElem?_drop_add (s.take b) a p] at hq
  rwa [List.getElem?_take_of_lt hlt] at hq

/-- The price-number regex only consumes digit/dot characters. -/
theorem COnly_priceNumRe : COnly digitDotP priceNumRe := by
  have hdig : ∀ c : Char, c.isDigit = true → digitDotP c = true := by
    intro c hc
    rw [digitDotP, hc, Bool.true_or]
  have hdigits : COnly digitDotP rdigits :=
    COnly.cat _ _ (COnly.cls _ hdig) (COnly.star _ (COnly.cls _ hdig))
  have hdot : COnly digitDotP (RE.lit ['.']) := by
    refine COnly.lit _ ?_
    intro c lc hlc hlow
    have hlc2 : lc = '.' := List.mem_singleton.1 hlc
    subst hlc2
    rw [show ('.' : Char).toLower = '.' by decide] at hlow
    rw [digitDotP, hlow]
    simp
  exact COnly.cat _ _ hdigits (COnly.ropt _ (COnly.cat _ _ hdot hdigits))

/-- `priceNumRe` has no capture group, so `CapP` holds trivially. -/
theorem CapP_priceNumRe : CapP digitDotP priceNumRe :=
  CapP.cat _ _ (CapP.cat _ _ (CapP.cls _) (CapP.star _ (CapP.cls _)))
    (CapP.ropt _ (CapP.cat _ _ (CapP.lit _)
      (CapP.cat _ _ (CapP.cls _) (CapP.star _ (CapP.cls _)))))

/-- Every capture group of the range regex is a price-number group. -/
theorem CapP_rangeRe : CapP digitDotP rangeRe := by
  repeat
    first
    | exact CapP.grp _ _ COnly_priceNumRe CapP_priceNumRe
    | apply CapP.cat
    | apply CapP.alt
    | apply CapP.ropt
    | apply CapP.star
    | exact CapP.cls _
    | exact CapP.lit _
    | exact CapP.eps

/-- Every capture group of the `under` regex is a price-number group. -/
theorem CapP_underRe : CapP digitDotP underRe := by
  repeat
    first
    | exact CapP.grp _ _ COnly_priceNumRe CapP_priceNumRe
    | apply CapP.cat
    | apply CapP.alt
    | apply CapP.ropt
    | apply CapP.star
    | exact CapP.cls _
    | exact CapP.lit _
    | exact CapP.eps

/-- Every capture group of the `above` regex is a price-number group. -/
theorem CapP_aboveRe : CapP digitDotP aboveRe := by
  repeat
    first
    | exact CapP.grp _ _ COnly_priceNumRe CapP_priceNumRe
    | apply CapP.cat
    | apply CapP.alt
    | apply CapP.ropt
    | apply CapP.star
    | exact CapP.cls _
    | exact CapP.lit _
    | exact CapP.eps

/-- Every character of a captured group of a `reSearch` match satisfies
the capture class `P` of the regex. -/
theorem capGet_class (P : Char → Bool) (re : RE) (hcap : CapP P re)
    (q : List Char) (m : Nat × Nat × Caps)
    (h : reSearch re q = some m) (n : Nat) :
    ∀ c ∈ (capGet q m.2.2 n).getD [], P c = true := by
  intro c hc
  cases hcg : capGet q m.2.2 n with
  | none => rw [hcg] at hc; simp at hc
  | some cs =>
    rw [hcg, Option.getD_some] at hc
    unfold reSearch at h
    obtain ⟨i, -, hsome⟩ := List.exists_of_findSome?_eq_some h
    cases hm : reMatch re q i with
    | nil => rw [hm] at hsome; simp at hsome
    | cons rhd rtl =>
      rw [hm] at hsome
      dsimp only at hsome
      rw [Option.some_inj] at hsome
      subst hsome
      dsimp only at hcg
      unfold capGet at hcg
      cases hfind : List.find? (fun c0 => c0.1 == n) rhd.2 with
      | none => rw [hfind] at hcg; exact absurd hcg (by simp)
      | some c0 =>
        rw [hfind, Option.map_some', Option.some_inj] at hcg
        subst hcg
        have hc0mem : c0 ∈ rhd.2 := List.mem_of_find?_eq_some hfind
        obtain ⟨k, hak, hkb, hqk⟩ := slice_index q c0.2.1 c0.2.2 c hc
        have hmemF : rhd ∈
            reMatchF ((reSize re + 1) * (q.length + 2)) re q i := by
          have hx : rhd ∈ reMatch re q i := by
            rw [hm]
            exact List.mem_cons_self _ _
          exact hx
        exact reMatch_capChars P ((reSize re + 1) * (q.length + 2)) re hcap
          q i rhd.1 rhd.2 hmemF c0.1 c0.2.1 c0.2.2 hc0mem k c hak hkb hqk

/-- The range-phrasing branch: both endpoints are the `parseFloat`
values of their captures, scaled by one common factor — 1,000 exactly
when the letter `k` occurs in the whole matched text, 1 otherwise. -/
theorem range_branch_scale (q : List Char) (m : Nat × Nat × Caps)
    (r : PriceRange) (hs : reSearch rangeRe q = some m)
    (hr : extractPriceRange q = some r) :
    ∃ a b : ℚ, jsParseFloat ((capGet q m.2.2 1).getD []) = some a ∧
      jsParseFloat ((capGet q m.2.2 2).getD []) = some b ∧
      r.min = a * (if jsIncludes (lowerStr (sliceStr q m.1 m.2.1))
        (strL r"k") = true then (1000 : ℚ) else 1) ∧
      r.max = b * (if jsIncludes (lowerStr (sliceStr q m.1 m.2.1))
        (strL r"k") = true then (1000 : ℚ) else 1) := by
  have h1 := parsePrice_capture ((capGet q m.2.2 1).getD [])
    (sliceStr q m.1 m.2.1)
    (capGet_class digitDotP rangeRe CapP_rangeRe q m hs 1)
  have h2 := parsePrice_capture ((capGet q m.2.2 2).getD [])
    (sliceStr q m.1 m.2.1)
    (capGet_class digitDotP rangeRe CapP_rangeRe q m hs 2)
  unfold extractPriceRange at hr
  rw [hs] at hr
  dsimp only at hr
  rw [h1, h2] at hr
  cases hf1 : jsParseFloat ((capGet q m.2.2 1).getD []) with
  | none =>
    rw [hf1, Option.map_none'] at hr
    cases hf2 : jsParseFloat ((capGet q m.2.2 2).getD []) with
    | none => rw [hf2, Option.map_none'] at hr; simp at hr
    | some b => rw [hf2, Option.map_some'] at hr; simp at hr
  | some a =>
    rw [hf1, Option.map_some'] at hr
    cases hf2 : jsParseFloat ((capGet q m.2.2 2).getD []) with
    | none => rw [hf2, Option.map_none'] at hr; simp at hr
    | some b =>
      rw [hf2, Option.map_some'] at hr
      dsimp only at hr
      set s := (if jsIncludes (lowerStr (sliceStr q m.1 m.2.1))
        (strL r"k") = true then (1000 : ℚ) else 1)
      split at hr
      · exact absurd hr (by simp)
      · rw [Option.some_inj] at hr
        subst hr
        exact ⟨a, b, rfl, rfl, rfl, rfl⟩

/-- The `under`-phrasing branch: the minimum is 0 and the maximum is
the capture's `parseFloat` value, scaled by 1,000 exactly when the
letter `k` occurs in the whole matched text. -/
theorem under_branch_scale (q : List Char) (m : Nat × Nat × Caps)
    (r : PriceRange) (h0 : reSearch rangeRe q = none)
    (hs : reSearch underRe q = some m)
    (hr : extractPriceRange q = some r) :
    ∃ a : ℚ, jsParseFloat ((capGet q m.2.2 1).getD []) = some a ∧
      r.min = 0 ∧
      r.max = a * (if jsIncludes (lowerStr (sliceStr q m.1 m.2.1))
        (strL r"k") = true then (1000 : ℚ) else 1) := by
  have h1 := parsePrice_capture ((capGet q m.2.2 1).getD [])
    (sliceStr q m.1 m.2.1)
    (capGet_class digitDotP underRe CapP_underRe q m hs 1)
  unfold extractPriceRange at hr
  rw [h0, hs] at hr
  dsimp only at hr
  rw [h1] at hr
  cases hf1 : jsParseFloat ((capGet q m.2.2 1).getD []) with
  | none => rw [hf1, Option.map_none'] at hr; simp at hr
  | some a =>
    rw [hf1, Option.map_some'] at hr
    dsimp only at hr
    set s := (if jsIncludes (lowerStr (sliceStr q m.1 m.2.1))
      (strL r"k") = true then (1000 : ℚ) else 1)
    split at hr
    · exact absurd hr (by simp)
    · rw [Option.some_inj] at hr
      subst hr
      exact ⟨a, rfl, rfl, rfl⟩

/-- The `above`-phrasing branch: the maximum is 999999 and the minimum
is the capture's `parseFloat` value, scaled by 1,000 exactly when the
letter `k` occurs in the whole matched text. -/
theorem above_branch_scale (q : List Char) (m : Nat × Nat × Caps)
    (r : PriceRange) (h0 : reSearch rangeRe q = none)
    (h1u : reSearch underRe q = none)
    (hs : reSearch aboveRe q = some m)
    (hr : extractPriceRange q = some r) :
    ∃ a : ℚ, jsParseFloat ((capGet q m.2.2 1).getD []) = some a ∧
      r.min = a * (if jsIncludes (lowerStr (sliceStr q m.1 m.2.1))
        (strL r"k") = true then (1000 : ℚ) else 1) ∧
      r.max = 999999 := by
  have h1 := parsePrice_capture ((capGet q m.2.2 1).getD [])
    (sliceStr q m.1 m.2.1)
    (capGet_class digitDotP aboveRe CapP_aboveRe q m hs 1)
  unfold extractPriceRange at hr
  rw [h0, h1u, hs] at hr
  dsimp only at hr
  rw [h1] at hr
  cases hf1 : jsParseFloat ((capGet q m.2.2 1).getD []) with
  | none => rw [hf1, Option.map_none'] at hr; simp at hr
  | some a =>
    rw [hf1, Option.map_some'] at hr
    dsimp only at hr
    set s := (if jsIncludes (lowerStr (sliceStr q m.1 m.2.1))
      (strL r"k") = true then (1000 : ℚ) else 1)
    split at hr
    · exact absurd hr (by simp)
    · rw [Option.some_inj] at hr
      subst hr
      exact ⟨a, rfl, rfl, rfl⟩

/-- Evaluation of `jsParseFloat` on a token whose leading digit run is
`ds`, with all the string-level side conditions discharged separately
(they are decidable on concrete tokens). -/
theorem jsParseFloat_spec (s ds : List Char)
    (h1 : s.dropWhile jsWhitespace = s)
    (h2 : s.head? ≠ some '-') (h3 : s.head? ≠ some '+')
    (h4 : s.takeWhile Char.isDigit = ds)
    (h5 : (s.dropWhile Char.isDigit).head? ≠ some '.')
    (h6 : ds ≠ []) :
    jsParseFloat s = some ((digitsToNat ds : ℚ)) := by
  unfold jsParseFloat
  dsimp only
  rw [h1, if_neg h2,
    if_neg (show ¬(s.head? = some '-' ∨ s.head? = some '+') from
      fun h => h.elim h2 h3),
    h4, if_neg h5,
    if_neg (show ¬(ds = [] ∧ ([] : List Char) = []) from fun h => h6 h.1)]
  have hz : digitsToNat ([] : List Char) = 0 := rfl
  rw [hz]
  norm_num

/-- `parsePrice` on a token with no `k`/`lakh`/`lac` anywhere: the
parsed number is returned unscaled. -/
theorem parsePrice_plain (s ds : List Char)
    (hfloat : jsParseFloat s = some ((digitsToNat ds : ℚ)))
    (hk : jsIncludes (lowerStr s) (strL r"k") = false)
    (hlakh : jsIncludes (lowerStr s) (strL r"lakh") = false)
    (hlac : jsIncludes (lowerStr s) (strL r"lac") = false) :
    parsePrice s = some ((digitsToNat ds : ℚ)) := by
  unfold parsePrice
  rw [hfloat]
  dsimp only
  rw [hk, hlakh, hlac]
  simp

/-- `parsePrice` on a token containing the letter `k`: the parsed
number is scaled by 1,000 (this branch fires first, so `lakh`/`lac`
are irrelevant once a `k` is present). -/
theorem parsePrice_k (s ds : List Char)
    (hfloat : jsParseFloat s = some ((digitsToNat ds : ℚ)))
    (hk : jsIncludes (lowerStr s) (strL r"k") = true) :
    parsePrice s = some ((digitsToNat ds : ℚ) * 1000) := by
  unfold parsePrice
  rw [hfloat]
  dsimp only
  rw [hk]
  simp

/-!
## Claim theorems
-/

/-- C3: for every input, the returned `requiresData` is `true` exactly
when the returned (final, post-demotion) intent belongs to the static
`dataRequiredIntents` table; it is a function of the final intent alone,
independent of the extracted entities. -/
theorem requiresData_iff_dataIntent (q : List Char) :
    (classifyIntent q).requiresData = true ↔
      (classifyIntent q).intent ∈ dataRequiredIntents := by
  unfold classifyIntent
  split
  · simp [dataRequiredIntents]
  · simp

/-- C6: a query that is empty or consists only of whitespace is
answered immediately with the fixed
`{intent: unknown, confidence: 0, requiresData: false, extractedEntities: {}}`
record. -/
theorem classify_whitespace_unknown (q : List Char)
    (h : ∀ c ∈ q, jsWhitespace c = true) :
    classifyIntent q =
      ⟨.unknown, 0, false, ⟨none, none, none, none⟩, none⟩ := by
  unfold classifyIntent
  rw [jsTrim_eq_nil q h]
  simp

/-- Witness for C6 at the three-space query. -/
theorem classify_whitespace_unknown_witness :
    classifyIntent (strL r"   ") =
      ⟨.unknown, 0, false, ⟨none, none, none, none⟩, none⟩ :=
  classify_whitespace_unknown (strL r"   ") (by decide)

/-- C8: any returned limit is an integer in `[1, 100]` (a resolved
number that is `NaN`, `≤ 0` or `> 100` is rejected), and the
word-numbers resolve as five → 5, ten → 10, twenty → 20. -/
theorem limit_in_range :
    (∀ (q : List Char) (n : ℤ), extractLimit q = some n →
      1 ≤ n ∧ n ≤ 100) ∧
    extractLimit (strL r"top five") = some 5 ∧
    extractLimit (strL r"show ten") = some 10 ∧
    extractLimit (strL r"list twenty") = some 20 := by
  refine ⟨?_, by decide, by decide, by decide⟩
  intro q n h
  unfold extractLimit at h
  split at h
  · dsimp only at h
    split at h
    · exact absurd h (by simp)
    · split at h
      · exact absurd h (by simp)
      · rename_i hc
        rw [Option.some_inj] at h
        subst h
        push_neg at hc
        omega
  · exact absurd h (by simp)

/-- Witness for C8's range bound at `"top 10"`. -/
theorem limit_in_range_witness :
    extractLimit (strL r"top 10") = some 10 ∧ 1 ≤ (10 : ℤ) ∧ (10 : ℤ) ≤ 100 :=
  ⟨by decide, limit_in_range.1 (strL r"top 10") 10 (by decide)⟩

/-- Evaluation of `extractPriceRange "above 999999"`. -/
theorem extractPR_above999999 :
    extractPriceRange (strL r"above 999999") = some ⟨999999, 999999⟩ := by
  have h1 : reSearch rangeRe (strL r"above 999999") = none := by decide
  have h1b : reSearch underRe (strL r"above 999999") = none := by decide
  have h2 : reSearch aboveRe (strL r"above 999999") =
      some (0, 12, [(1, 6, 12)]) := by decide
  have h4 : parsePrice (strL r"999999") =
      some ((digitsToNat (strL r"999999") : ℚ)) :=
    parsePrice_plain _ _
      (jsParseFloat_spec _ _ (by decide) (by decide) (by decide) (by decide)
        (by decide) (by decide))
      (by decide) (by decide) (by decide)
  have h5 : digitsToNat (strL r"999999") = 999999 := by decide
  rw [h5] at h4
  have h4p : parsePrice (strL r"999999") = some (999999 : ℚ) := by
    rw [h4]; norm_num
  unfold extractPriceRange
  simp only [h1, h1b, h2]
  have h3 : (capGet (strL r"above 999999") [(1, 6, 12)] 1).getD [] ++
      kSuffix (sliceStr (strL r"above 999999") 0 12) = strL r"999999" := by
    decide
  rw [h3]
  simp only [h4p]
  rw [if_neg (by norm_num)]

/-- C1 fails as stated: the `above` phrasing checks only `min ≥ 0`, so
`"above 999999"` yields `{min: 999999, max: 999999}` with `min ≥ max`. -/
theorem priceRange_min_lt_max_counterexample :
    extractPriceRange (strL r"above 999999") =
      some ⟨999999, 999999⟩ ∧ ¬ ((999999 : ℚ) < 999999) := by
  constructor
  · exact extractPR_above999999
  · norm_num

/-- C1 amended: every returned price range has `min ≥ 0` and `max ≥ 0`;
`min < max` is guaranteed by the `between`/`from` and `under` phrasings,
while the `above` phrasing fixes `max = 999999` and checks only
`min ≥ 0`, so it can return `min ≥ max`. -/
theorem priceRange_invariants (q : List Char) (r : PriceRange)
    (h : extractPriceRange q = some r) :
    0 ≤ r.min ∧ 0 ≤ r.max ∧ (r.min < r.max ∨ r.max = 999999) := by
  unfold extractPriceRange at h
  split at h
  · -- between/from branch
    dsimp only at h
    split at h
    · split at h
      · exact absurd h (by simp)
      · rename_i hguard
        rw [Option.some_inj] at h
        subst h
        push_neg at hguard
        exact ⟨hguard.1, hguard.2.1, Or.inl hguard.2.2⟩
    · exact absurd h (by simp)
  · split at h
    · -- under branch
      dsimp only at h
      split at h
      · split at h
        · exact absurd h (by simp)
        · rename_i hguard
          rw [Option.some_inj] at h
          subst h
          push_neg at hguard
          exact ⟨le_rfl, le_of_lt hguard, Or.inl hguard⟩
      · exact absurd h (by simp)
    · split at h
      · -- above branch
        dsimp only at h
        split at h
        · split at h
          · exact absurd h (by simp)
          · rename_i hguard
            rw [Option.some_inj] at h
            subst h
            push_neg at hguard
            exact ⟨hguard, by norm_num, Or.inr rfl⟩
        · exact absurd h (by simp)
      · exact absurd h (by simp)

/-- Evaluation of `extractPriceRange "under 500"`. -/
theorem extractPR_under500 :
    extractPriceRange (strL r"under 500") = some ⟨0, 500⟩ := by
  have h1 : reSearch rangeRe (strL r"under 500") = none := by decide
  have h2 : reSearch underRe (strL r"under 500") =
      some (0, 9, [(1, 6, 9)]) := by decide
  have h4 : parsePrice (strL r"500") =
      some ((digitsToNat (strL r"500") : ℚ)) :=
    parsePrice_plain _ _
      (jsParseFloat_spec _ _ (by decide) (by decide) (by decide) (by decide)
        (by decide) (by decide))
      (by decide) (by decide) (by decide)
  have h5 : digitsToNat (strL r"500") = 500 := by decide
  rw [h5] at h4
  have h4p : parsePrice (strL r"500") = some (500 : ℚ) := by
    rw [h4]; norm_num
  unfold extractPriceRange
  simp only [h1, h2]
  have h3 : (capGet (strL r"under 500") [(1, 6, 9)] 1).getD [] ++
      kSuffix (sliceStr (strL r"under 500") 0 9) = strL r"500" := by decide
  rw [h3]
  simp only [h4p]
  rw [if_neg (by norm_num)]

/-- Witness for the amended C1 at `"under 500"`. -/
theorem priceRange_invariants_witness :
    extractPriceRange (strL r"under 500") = some ⟨0, 500⟩ ∧
      (0 ≤ (0 : ℚ) ∧ 0 ≤ (500 : ℚ) ∧
        ((0 : ℚ) < 500 ∨ (500 : ℚ) = 999999)) :=
  ⟨extractPR_under500,
    priceRange_invariants (strL r"under 500") ⟨0, 500⟩ extractPR_under500⟩

/-- Evaluation of `extractPriceRange "under 5 lakh"`: the whole match
contains the `k` of `lakh`, so `"k"` is appended to the digits and the
value is scaled by 1,000. -/
theorem extractPR_under5lakh :
    extractPriceRange (strL r"under 5 lakh") = some ⟨0, 5000⟩ := by
  have h1 : reSearch rangeRe (strL r"under 5 lakh") = none := by decide
  have h2 : reSearch underRe (strL r"under 5 lakh") =
      some (0, 12, [(1, 6, 7)]) := by decide
  have h4 : parsePrice (strL r"5k") =
      some ((digitsToNat (strL r"5") : ℚ) * 1000) :=
    parsePrice_k _ _
      (jsParseFloat_spec _ _ (by decide) (by decide) (by decide) (by decide)
        (by decide) (by decide))
      (by decide)
  have h5 : digitsToNat (strL r"5") = 5 := by decide
  rw [h5] at h4
  have h4p : parsePrice (strL r"5k") = some (5000 : ℚ) := by
    rw [h4]; norm_num
  unfold extractPriceRange
  simp only [h1, h2]
  have h3 : (capGet (strL r"under 5 lakh") [(1, 6, 7)] 1).getD [] ++
      kSuffix (sliceStr (strL r"under 5 lakh") 0 12) = strL r"5k" := by decide
  rw [h3]
  simp only [h4p]
  rw [if_neg (by norm_num)]

/-- C2 fails as stated: `"under 5 lakh"` returns `max = 5000`, not
`5 * 100,000` — the code appends `"k"` to the digits whenever the whole
matched text contains the letter `k`, and `"lakh"` contains one. -/
theorem price_suffix_counterexample :
    extractPriceRange (strL r"under 5 lakh") = some ⟨0, 5000⟩ ∧
      (5000 : ℚ) ≠ 5 * 100000 := by
  constructor
  · exact extractPR_under5lakh
  · norm_num

/-- Evaluation of `extractPriceRange "under 2 lac"`: `lac` has no `k`,
so the number is taken as-is. -/
theorem extractPR_under2lac :
    extractPriceRange (strL r"under 2 lac") = some ⟨0, 2⟩ := by
  have h1 : reSearch rangeRe (strL r"under 2 lac") = none := by decide
  have h2 : reSearch underRe (strL r"under 2 lac") =
      some (0, 11, [(1, 6, 7)]) := by decide
  have h4 : parsePrice (strL r"2") =
      some ((digitsToNat (strL r"2") : ℚ)) :=
    parsePrice_plain _ _
      (jsParseFloat_spec _ _ (by decide) (by decide) (by decide) (by decide)
        (by decide) (by decide))
      (by decide) (by decide) (by decide)
  have h5 : digitsToNat (strL r"2") = 2 := by decide
  rw [h5] at h4
  have h4p : parsePrice (strL r"2") = some (2 : ℚ) := by
    rw [h4]; norm_num
  unfold extractPriceRange
  simp only [h1, h2]
  have h3 : (capGet (strL r"under 2 lac") [(1, 6, 7)] 1).getD [] ++
      kSuffix (sliceStr (strL r"under 2 lac") 0 11) = strL r"2" := by decide
  rw [h3]
  simp only [h4p]
  rw [if_neg (by norm_num)]

/-- Evaluation of `extractPriceRange "under 20k"`. -/
theorem extractPR_under20k :
    extractPriceRange (strL r"under 20k") = some ⟨0, 20000⟩ := by
  have h1 : reSearch rangeRe (strL r"under 20k") = none := by decide
  have h2 : reSearch underRe (strL r"under 20k") =
      some (0, 9, [(1, 6, 8)]) := by decide
  have h4 : parsePrice (strL r"20k") =
      some ((digitsToNat (strL r"20") : ℚ) * 1000) :=
    parsePrice_k _ _
      (jsParseFloat_spec _ _ (by decide) (by decide) (by decide) (by decide)
        (by decide) (by decide))
      (by decide)
  have h5 : digitsToNat (strL r"20") = 20 := by decide
  rw [h5] at h4
  have h4p : parsePrice (strL r"20k") = some (20000 : ℚ) := by
    rw [h4]; norm_num
  unfold extractPriceRange
  simp only [h1, h2]
  have h3 : (capGet (strL r"under 20k") [(1, 6, 8)] 1).getD [] ++
      kSuffix (sliceStr (strL r"under 20k") 0 9) = strL r"20k" := by decide
  rw [h3]
  simp only [h4p]
  rw [if_neg (by norm_num)]

/-- Evaluation of `extractPriceRange "between 10k and 20"`: the `k` in
the whole match scales both endpoints. -/
theorem extractPR_between10k20 :
    extractPriceRange (strL r"between 10k and 20") =
      some ⟨10000, 20000⟩ := by
  have h2 : reSearch rangeRe (strL r"between 10k and 20") =
      some (0, 18, [(1, 8, 10), (2, 16, 18)]) := by decide
  have h4a : parsePrice (strL r"10k") =
      some ((digitsToNat (strL r"10") : ℚ) * 1000) :=
    parsePrice_k _ _
      (jsParseFloat_spec _ _ (by decide) (by decide) (by decide) (by decide)
        (by decide) (by decide))
      (by decide)
  have h4b : parsePrice (strL r"20k") =
      some ((digitsToNat (strL r"20") : ℚ) * 1000) :=
    parsePrice_k _ _
      (jsParseFloat_spec _ _ (by decide) (by decide) (by decide) (by decide)
        (by decide) (by decide))
      (by decide)
  have h5a : digitsToNat (strL r"10") = 10 := by decide
  have h5b : digitsToNat (strL r"20") = 20 := by decide
  rw [h5a] at h4a
  rw [h5b] at h4b
  have h4ap : parsePrice (strL r"10k") = some (10000 : ℚ) := by
    rw [h4a]; norm_num
  have h4bp : parsePrice (strL r"20k") = some (20000 : ℚ) := by
    rw [h4b]; norm_num
  unfold extractPriceRange
  simp only [h2]
  have h3a : (capGet (strL r"between 10k and 20")
      [(1, 8, 10), (2, 16, 18)] 1).getD [] ++
      kSuffix (sliceStr (strL r"between 10k and 20") 0 18) =
      strL r"10k" := by decide
  have h3b : (capGet (strL r"between 10k and 20")
      [(1, 8, 10), (2, 16, 18)] 2).getD [] ++
      kSuffix (sliceStr (strL r"between 10k and 20") 0 18) =
      strL r"20k" := by decide
  rw [h3a, h3b]
  simp only [h4ap, h4bp]
  rw [if_neg (by norm_num)]

/-- Evaluation of `extractPriceRange "between 3 and 20k"`: the `k`
attached to the second endpoint scales the first endpoint too. -/
theorem extractPR_between3and20k :
    extractPriceRange (strL r"between 3 and 20k") =
      some ⟨3000, 20000⟩ := by
  have h2 : reSearch rangeRe (strL r"between 3 and 20k") =
      some (0, 17, [(1, 8, 9), (2, 14, 16)]) := by decide
  have h4a : parsePrice (strL r"3k") =
      some ((digitsToNat (strL r"3") : ℚ) * 1000) :=
    parsePrice_k _ _
      (jsParseFloat_spec _ _ (by decide) (by decide) (by decide) (by decide)
        (by decide) (by decide))
      (by decide)
  have h4b : parsePrice (strL r"20k") =
      some ((digitsToNat (strL r"20") : ℚ) * 1000) :=
    parsePrice_k _ _
      (jsParseFloat_spec _ _ (by decide) (by decide) (by decide) (by decide)
        (by decide) (by decide))
      (by decide)
  have h5a : digitsToNat (strL r"3") = 3 := by decide
  have h5b : digitsToNat (strL r"20") = 20 := by decide
  rw [h5a] at h4a
  rw [h5b] at h4b
  have h4ap : parsePrice (strL r"3k") = some (3000 : ℚ) := by
    rw [h4a]; norm_num
  have h4bp : parsePrice (strL r"20k") = some (20000 : ℚ) := by
    rw [h4b]; norm_num
  unfold extractPriceRange
  simp only [h2]
  have h3a : (capGet (strL r"between 3 and 20k")
      [(1, 8, 9), (2, 14, 16)] 1).getD [] ++
      kSuffix (sliceStr (strL r"between 3 and 20k") 0 17) =
      strL r"3k" := by decide
  have h3b : (capGet (strL r"between 3 and 20k")
      [(1, 8, 9), (2, 14, 16)] 2).getD [] ++
      kSuffix (sliceStr (strL r"between 3 and 20k") 0 17) =
      strL r"20k" := by decide
  rw [h3a, h3b]
  simp only [h4ap, h4bp]
  rw [if_neg (by norm_num)]

/-- C2 amended: for every query, a matched number resolves to its
`parseFloat` value multiplied by one common factor — 1,000 exactly when
the letter `k` occurs anywhere in the whole matched text, 1 otherwise
(so the ×100,000 branch of `parsePrice` is never exercised by the
extractor); in a `between` match both endpoints share that factor, so
a `k` on either endpoint scales both.  Hence `lakh` scales by 1,000
(via its own letter `k`) and `lac` scales by 1, as the six concrete
instances illustrate: in particular `"under 5 lakh"` returns
`max = 5,000`. -/
theorem price_suffix_resolution :
    (∀ (q : List Char) (m : Nat × Nat × Caps) (r : PriceRange),
      reSearch rangeRe q = some m → extractPriceRange q = some r →
      ∃ a b : ℚ, jsParseFloat ((capGet q m.2.2 1).getD []) = some a ∧
        jsParseFloat ((capGet q m.2.2 2).getD []) = some b ∧
        r.min = a * (if jsIncludes (lowerStr (sliceStr q m.1 m.2.1))
          (strL r"k") = true then (1000 : ℚ) else 1) ∧
        r.max = b * (if jsIncludes (lowerStr (sliceStr q m.1 m.2.1))
          (strL r"k") = true then (1000 : ℚ) else 1)) ∧
    (∀ (q : List Char) (m : Nat × Nat × Caps) (r : PriceRange),
      reSearch rangeRe q = none → reSearch underRe q = some m →
      extractPriceRange q = some r →
      ∃ a : ℚ, jsParseFloat ((capGet q m.2.2 1).getD []) = some a ∧
        r.min = 0 ∧
        r.max = a * (if jsIncludes (lowerStr (sliceStr q m.1 m.2.1))
          (strL r"k") = true then (1000 : ℚ) else 1)) ∧
    (∀ (q : List Char) (m : Nat × Nat × Caps) (r : PriceRange),
      reSearch rangeRe q = none → reSearch underRe q = none →
      reSearch aboveRe q = some m → extractPriceRange q = some r →
      ∃ a : ℚ, jsParseFloat ((capGet q m.2.2 1).getD []) = some a ∧
        r.min = a * (if jsIncludes (lowerStr (sliceStr q m.1 m.2.1))
          (strL r"k") = true then (1000 : ℚ) else 1) ∧
        r.max = 999999) ∧
    extractPriceRange (strL r"under 500") = some ⟨0, 500⟩ ∧
    extractPriceRange (strL r"under 20k") = some ⟨0, 20000⟩ ∧
    extractPriceRange (strL r"under 5 lakh") = some ⟨0, 5000⟩ ∧
    extractPriceRange (strL r"under 2 lac") = some ⟨0, 2⟩ ∧
    extractPriceRange (strL r"between 10k and 20") = some ⟨10000, 20000⟩ ∧
    extractPriceRange (strL r"between 3 and 20k") = some ⟨3000, 20000⟩ :=
  ⟨range_branch_scale, under_branch_scale, above_branch_scale,
   extractPR_under500, extractPR_under20k, extractPR_under5lakh,
   extractPR_under2lac, extractPR_between10k20, extractPR_between3and20k⟩

/-- Witness for C2's `under` rule at `"under 5 lakh"`: the match spans
`[0, 12)` with capture 1 at `[6, 7)` (the digit `5`), the whole matched
text contains the `k` of `lakh`, and the returned maximum is the
capture's `parseFloat` value 5 scaled by 1,000. -/
theorem price_suffix_resolution_witness :
    reSearch rangeRe (strL r"under 5 lakh") = none ∧
    reSearch underRe (strL r"under 5 lakh") = some (0, 12, [(1, 6, 7)]) ∧
    extractPriceRange (strL r"under 5 lakh") = some ⟨0, 5000⟩ ∧
    (5000 : ℚ) = 5 * 1000 := by
  refine ⟨by decide, by decide, extractPR_under5lakh, ?_⟩
  obtain ⟨a, ha1, -, ha3⟩ :=
    price_suffix_resolution.2.1 (strL r"under 5 lakh") (0, 12, [(1, 6, 7)])
      ⟨0, 5000⟩ (by decide) (by decide) extractPR_under5lakh
  have hcap : ((capGet (strL r"under 5 lakh")
      ((0, 12, [(1, 6, 7)]) : Nat × Nat × Caps).2.2 1).getD []) =
      strL r"5" := by decide
  rw [hcap] at ha1
  have hf : jsParseFloat (strL r"5") =
      some ((digitsToNat (strL r"5") : ℚ)) :=
    jsParseFloat_spec _ _ (by decide) (by decide) (by decide) (by decide)
      (by decide) (by decide)
  have h5 : digitsToNat (strL r"5") = 5 := by decide
  rw [h5] at hf
  rw [hf, Option.some_inj] at ha1
  have hmax : (5000 : ℚ) =
      a * (if jsIncludes (lowerStr (sliceStr (strL r"under 5 lakh")
        ((0, 12, [(1, 6, 7)]) : Nat × Nat × Caps).1
        ((0, 12, [(1, 6, 7)]) : Nat × Nat × Caps).2.1))
        (strL r"k") = true then (1000 : ℚ) else 1) := ha3
  rw [hmax, ← ha1]
  split
  · norm_num
  · rename_i hcon
    exact absurd (by decide) hcon

/-- C10: product-name extraction runs for every intent that has declared
patterns, not only data-requiring ones: `"Hello"` classifies as the
non-data-requiring `greeting` (whose sole pattern has no capture
group), and the phrase-stripping fallback still yields
`productName = "Hello"`. -/
theorem hello_greeting_product_name :
    (classifyIntent (strL r"Hello")).intent = .greeting ∧
    (classifyIntent (strL r"Hello")).requiresData = false ∧
    (classifyIntent (strL r"Hello")).extractedEntities.productName =
      some (strL r"Hello") ∧
    (patternsOfOpt .greeting).isSome = true := by
  have hb : afterFallback (strL r"Hello") = (.greeting, 7) := by decide
  have hg : gateIntent QueryIntent.greeting 7 = .greeting :=
    gateIntent_eq _ _ (fun h => absurd h (by norm_num)) (Or.inr (by norm_num))
  have hpn : extractProductName (strL r"Hello") .greeting =
      some (strL r"Hello") := by decide
  unfold classifyIntent
  rw [if_neg (by decide)]
  dsimp only
  rw [hb]
  dsimp only
  rw [hg]
  exact ⟨rfl, by decide, hpn, rfl⟩

/-- C7: the fallback heuristics apply iff no intent scored above 0, in
order: product-domain keyword → `product_info` with score 3, else
interrogative start → `general_question` with score 2, else `unknown`
with score 0; when some intent scored positively, neither fallback
changes the scoring loop's result. -/
theorem fallback_order (q : List Char) :
    ((∃ i ∈ INTENT_ORDER, 0 < intentScore q i) →
      afterFallback q = scoreLoop q) ∧
    ((∀ i ∈ INTENT_ORDER, intentScore q i = 0) →
      afterFallback q =
        if isProductRelated q then (.product_info, 3)
        else if reTest interrogRe q then (.general_question, 2)
        else (.unknown, 0)) := by
  constructor
  · rintro ⟨i, hi, hpos⟩
    have hle : intentScore q i ≤ (scoreLoop q).2 :=
      scoreFold_le q INTENT_ORDER _ i hi
    unfold afterFallback fallback2 fallback1
    rw [if_neg (show ¬((scoreLoop q).2 = 0 ∧ isProductRelated q = true) from
      fun h => absurd h.1 (by omega))]
    rw [if_neg (show ¬((scoreLoop q).2 = 0 ∧ reTest interrogRe q = true) from
      fun h => absurd h.1 (by omega))]
  · intro hall
    have hz : (scoreLoop q).2 = 0 := by
      by_contra hnz
      have hpos : ((QueryIntent.unknown, 0) : QueryIntent × Nat).2 <
          (INTENT_ORDER.foldl (scoreStep q) (.unknown, 0)).2 :=
        Nat.pos_of_ne_zero hnz
      obtain ⟨l₁, l₂, hsplit, hsc, _⟩ :=
        scoreFold_decomp q INTENT_ORDER _ hpos
      have hmem : (INTENT_ORDER.foldl (scoreStep q) (.unknown, 0)).1 ∈
          INTENT_ORDER := by
        have hmm : (INTENT_ORDER.foldl (scoreStep q) (.unknown, 0)).1 ∈
            l₁ ++ (INTENT_ORDER.foldl (scoreStep q) (.unknown, 0)).1 :: l₂ :=
          List.mem_append_right _ (List.mem_cons_self _ _)
        rwa [← hsplit] at hmm
      have h0 := hall _ hmem
      rw [h0] at hsc
      unfold scoreLoop at hnz
      omega
    have hsl : scoreLoop q = (.unknown, 0) := scoreLoop_zero q hz
    unfold afterFallback fallback2 fallback1
    rw [hsl]
    by_cases hpr : isProductRelated q = true
    · rw [if_pos (show ((QueryIntent.unknown, 0) : QueryIntent × Nat).2 = 0 ∧
          isProductRelated q = true from ⟨rfl, hpr⟩),
        if_neg (show ¬(((QueryIntent.product_info, 3) :
            QueryIntent × Nat).2 = 0 ∧ reTest interrogRe q = true) from
          fun h => absurd h.1 (by decide)),
        if_pos hpr]
    · rw [if_neg (show ¬(((QueryIntent.unknown, 0) : QueryIntent × Nat).2 = 0 ∧
          isProductRelated q = true) from fun h => hpr h.2)]
      by_cases hint : reTest interrogRe q = true
      · rw [if_pos (show ((QueryIntent.unknown, 0) : QueryIntent × Nat).2 = 0 ∧
            reTest interrogRe q = true from ⟨rfl, hint⟩),
          if_neg hpr, if_pos hint]
      · rw [if_neg (show ¬(((QueryIntent.unknown, 0) :
              QueryIntent × Nat).2 = 0 ∧ reTest interrogRe q = true) from
            fun h => hint h.2),
          if_neg hpr, if_neg hint]

/-- Witness for C7 at `"zzz cable"`: every intent scores 0, the query
is product-related, so the first fallback yields `product_info`/3. -/
theorem fallback_order_witness :
    (∀ i ∈ INTENT_ORDER, intentScore (strL r"zzz cable") i = 0) ∧
    afterFallback (strL r"zzz cable") = (.product_info, 3) := by
  refine ⟨by decide, ?_⟩
  have h := (fallback_order (strL r"zzz cable")).2 (by decide)
  rw [h]
  decide

/-- C4: pre-fallback scoring gives each intent 2 points per matched
keyword plus a flat 5 when any of its patterns matches, and the loop
selects the intent with the strictly highest score, ties resolved in
favour of the first intent in declaration order: every intent listed
before the winner scores strictly less. -/
theorem scoring_first_max (q : List Char) (hq : jsTrim q ≠ []) :
    (∀ i, intentScore q i =
      2 * countKeywordHits q i + (if anyPatternHit q i then 5 else 0)) ∧
    (∀ i ∈ INTENT_ORDER, intentScore q i ≤ (scoreLoop q).2) ∧
    (0 < (scoreLoop q).2 →
      ∃ l₁ l₂, INTENT_ORDER = l₁ ++ (scoreLoop q).1 :: l₂ ∧
        intentScore q (scoreLoop q).1 = (scoreLoop q).2 ∧
        ∀ i ∈ l₁, intentScore q i < (scoreLoop q).2) := by
  refine ⟨fun i => rfl, fun i hi => scoreFold_le q INTENT_ORDER _ i hi, ?_⟩
  intro hpos
  exact scoreFold_decomp q INTENT_ORDER (.unknown, 0) hpos

/-- Witness for C4 at `"hi"`. -/
theorem scoring_first_max_witness :
    jsTrim (strL r"hi") ≠ [] ∧
    (∀ i ∈ INTENT_ORDER,
      intentScore (strL r"hi") i ≤ (scoreLoop (strL r"hi")).2) :=
  ⟨by decide, (scoring_first_max (strL r"hi") (by decide)).2.1⟩

/-- C9: the returned confidence is `k/10` for some `k ≤ 10`, and is
either exactly 0 or at least `0.2` (every achievable positive score is
at least 2); hence the minimum-confidence gate never changes the chosen
intent — the final intent equals the pre-gate intent, and a sub-0.2
confidence forces the pre-gate intent to be `unknown` already, so the
demotion to `general_question` can never fire. -/
theorem confidence_quantized_gate_noop (q : List Char) :
    (∃ k : ℕ, k ≤ 10 ∧ (classifyIntent q).confidence = (k : ℚ) / 10) ∧
    ((classifyIntent q).confidence = 0 ∨
      1 / 5 ≤ (classifyIntent q).confidence) ∧
    (jsTrim q ≠ [] →
      (classifyIntent q).intent = (afterFallback q).1 ∧
      ((classifyIntent q).confidence < 1 / 5 →
        (afterFallback q).1 = .unknown)) := by
  unfold classifyIntent
  split
  · rename_i hempty
    refine ⟨⟨0, by norm_num, by norm_num⟩, Or.inl rfl, fun hne => ?_⟩
    exact absurd (List.length_eq_zero.1 hempty) hne
  · dsimp only
    have hconf : confRounded (afterFallback q).2 =
        ((min (afterFallback q).2 10 : ℕ) : ℚ) / 10 := confRounded_eq _
    refine ⟨⟨min (afterFallback q).2 10, min_le_right _ _, hconf⟩, ?_,
      fun hne => ?_⟩
    · rcases afterFallback_zero_or_ge_two q with h0 | h2
      · left
        rw [hconf, h0]
        norm_num
      · right
        rw [hconf]
        have hmin : 2 ≤ min (afterFallback q).2 10 := by omega
        have hcast : (2 : ℚ) ≤ ((min (afterFallback q).2 10 : ℕ) : ℚ) := by
          exact_mod_cast hmin
        rw [div_le_div_iff₀ (by norm_num) (by norm_num)]
        linarith
    · have hgate : gateIntent (afterFallback q).1 (afterFallback q).2 =
          (afterFallback q).1 :=
        gateIntent_eq _ _ (afterFallback_zero_unknown q)
          (afterFallback_zero_or_ge_two q)
      refine ⟨hgate, fun hlt => ?_⟩
      have hlt2 : confidenceOf (afterFallback q).2 < 1 / 5 := by
        rw [hconf] at hlt
        exact hlt
      have hm2 : (afterFallback q).2 < 2 := (confidenceOf_lt_iff _).1 hlt2
      have hm0 : (afterFallback q).2 = 0 := by
        rcases afterFallback_zero_or_ge_two q with h0 | h2
        · exact h0
        · omega
      exact afterFallback_zero_unknown q hm0

/-- Witness for C9 at `"hi"`. -/
theorem confidence_quantized_gate_noop_witness :
    (classifyIntent (strL r"hi")).intent = (afterFallback (strL r"hi")).1 :=
  ((confidence_quantized_gate_noop (strL r"hi")).2.2 (by decide)).1

/-- An infix survives extending the list on the right. -/
theorem infix_extR (s a b : List Char) (h : s <:+: a) : s <:+: a ++ b := by
  obtain ⟨u, v, huv⟩ := h
  exact ⟨u, v ++ b, by rw [← huv]; simp [List.append_assoc]⟩

/-- An infix survives extending the list on the left. -/
theorem infix_extL (s a b : List Char) (h : s <:+: b) : s <:+: a ++ b := by
  obtain ⟨u, v, huv⟩ := h
  exact ⟨a ++ u, v, by rw [← huv]; simp [List.append_assoc]⟩

/-- A classification whose only populated entity field is the
category. -/
def catOnlyClassification : IntentClassification :=
  ⟨.product_search, 1 / 2, true,
   ⟨none, some (strL r"headphone"), none, none⟩, none⟩

/-- C5 fails as stated: `formatIntentClassification` never renders
`productCategory` — on a record whose category is `"headphone"`, the
rendering does not mention it at all. -/
theorem format_omits_category :
    catOnlyClassification.extractedEntities.productCategory =
      some (strL r"headphone") ∧
    jsIncludes (formatIntentClassification catOnlyClassification)
      (strL r"headphone") = false := by
  have hr : jsRound ((1 : ℚ) / 2 * 100) = 50 := by
    unfold jsRound
    rw [Int.floor_eq_iff]
    norm_num
  refine ⟨rfl, ?_⟩
  unfold formatIntentClassification catOnlyClassification
  dsimp only
  rw [hr]
  decide

/-- C5 amended: the rendering contains the intent name with its
confidence percentage, the data-requirement flag, and each populated
(truthy) `productName`, `limit` and `priceRange` field, each segment
ending in its own newline, with price values prefixed by the rupee
sign; `productCategory`, however, is never rendered — the output is
independent of it. -/
theorem format_lines (c : IntentClassification) :
    (∀ cat, formatIntentClassification
        { c with extractedEntities :=
            { c.extractedEntities with productCategory := cat } } =
      formatIntentClassification c) ∧
    jsIncludes (formatIntentClassification c)
      (strL r"Intent: " ++ intentName c.intent ++ strL r" (" ++
        intToStr (jsRound (c.confidence * 100)) ++ strL r"% confident)" ++
        ['\n']) = true ∧
    jsIncludes (formatIntentClassification c)
      (strL r"Requires Data: " ++
        (if c.requiresData then strL r"Yes" else strL r"No") ++ ['\n']) =
      true ∧
    (∀ p, c.extractedEntities.productName = some p → p ≠ [] →
      jsIncludes (formatIntentClassification c)
        (strL r"Product: " ++ '"' :: p ++ '"' :: ['\n']) = true) ∧
    (∀ n, c.extractedEntities.limit = some n → n ≠ 0 →
      jsIncludes (formatIntentClassification c)
        (strL r"Limit: " ++ intToStr n ++ ['\n']) = true) ∧
    (∀ pr, c.extractedEntities.priceRange = some pr →
      jsIncludes (formatIntentClassification c)
        (strL r"Price Range: " ++ strL r"₹" ++ qToStr pr.min ++
          strL r" - " ++ strL r"₹" ++ qToStr pr.max ++ ['\n']) = true) := by
  refine ⟨fun cat => rfl, ?_, ?_, ?_, ?_, ?_⟩
  · rw [jsIncludes_iff]
    unfold formatIntentClassification
    exact infix_extR _ _ _ (infix_extR _ _ _ (infix_extR _ _ _
      (infix_extR _ _ _ (List.infix_refl _))))
  · rw [jsIncludes_iff]
    unfold formatIntentClassification
    exact infix_extR _ _ _ (infix_extR _ _ _ (infix_extR _ _ _
      (infix_extL _ _ _ (List.infix_refl _))))
  · intro p hp hne
    rw [jsIncludes_iff]
    unfold formatIntentClassification
    rw [hp]
    dsimp only
    rw [if_neg hne]
    exact infix_extR _ _ _ (infix_extR _ _ _
      (infix_extL _ _ _ (List.infix_refl _)))
  · intro n hn hne
    rw [jsIncludes_iff]
    unfold formatIntentClassification
    rw [hn]
    dsimp only
    rw [if_neg hne]
    exact infix_extR _ _ _ (infix_extL _ _ _ (List.infix_refl _))
  · intro pr hpr
    rw [jsIncludes_iff]
    unfold formatIntentClassification
    rw [hpr]
    dsimp only
    exact infix_extL _ _ _ (List.infix_refl _)

/-- A classification with every entity field populated, used to witness
the rendering lemma. -/
def fullClassification : IntentClassification :=
  ⟨.product_search, 7 / 10, true,
   ⟨some (strL r"boat"), some (strL r"speaker"), some ⟨0, 500⟩, some 10⟩,
   none⟩

/-- Witness for the amended C5 on a fully-populated record. -/
theorem format_lines_witness :
    jsIncludes (formatIntentClassification fullClassification)
      (strL r"Product: " ++ '"' :: strL r"boat" ++ '"' :: ['\n']) = true ∧
    jsIncludes (formatIntentClassification fullClassification)
      (strL r"Limit: " ++ intToStr 10 ++ ['\n']) = true ∧
    jsIncludes (formatIntentClassification fullClassification)
      (strL r"Price Range: " ++ strL r"₹" ++ qToStr (0 : ℚ) ++
        strL r" - " ++ strL r"₹" ++ qToStr (500 : ℚ) ++ ['\n']) = true :=
  ⟨(format_lines fullClassification).2.2.2.1 (strL r"boat") rfl (by decide),
   (format_lines fullClassification).2.2.2.2.1 10 rfl (by decide),
   (format_lines fullClassification).2.2.2.2.2 ⟨0, 500⟩ rfl⟩

end ShopSense
